import Mathlib

/-!
Verification of the loggerhead history-db indexer
(src/loggerhead/history_db.py) against its specification.

The embedding identifies revision ids with their interned database ids
(both are modelled as natural numbers; interning via the missing
history_db_schema module is the identity in this model).  Dotted revnos,
which SQLite stores as dot-joined decimal strings, are modelled as
nonempty lists of naturals; joining with a dot and re-splitting is the
identity on those, so nothing is lost.  Python while-loops become fueled
recursion; Python lists that are popped from the end are represented
with the list head playing the role of the Python tail, which is noted
at each definition.
-/

set_option maxRecDepth 40000

set_option maxHeartbeats 2000000

namespace HistoryDb

/-- Association-list lookup, first match wins.  This models both the
Python dictionaries of the Importer and the primary-key lookups of the
SQLite tables. -/
def look {β : Type} : List (Nat × β) → Nat → Option β
  | [], _ => none
  | (a, b) :: t, k => if a = k then some b else look t k

/-- Lookup with a default, modelling dict.get(k, d). -/
def lookD {β : Type} (m : List (Nat × β)) (k : Nat) (d : β) : β :=
  (look m k).getD d

/-- Set membership for the Python sets, modelled as lists. -/
def memb (x : Nat) (s : List Nat) : Bool := s.contains x

/-- Add to a Python set. -/
def setAdd (s : List Nat) (x : Nat) : List Nat :=
  if memb x s then s else x :: s

/-- set.difference_update: remove every member of rem from s. -/
def setDiff (s rem : List Nat) : List Nat :=
  s.filter (fun x => ¬ memb x rem)

theorem look_eq_none_or_some {β : Type} (m : List (Nat × β)) (k : Nat) :
    look m k = none ∨ ∃ b, look m k = some b := by
  cases h : look m k
  · exact Or.inl rfl
  · exact Or.inr ⟨_, rfl⟩

theorem look_cons_self {β : Type} (m : List (Nat × β)) (k : Nat) (b : β) :
    look ((k, b) :: m) k = some b := by
  simp [look]

theorem look_cons_ne {β : Type} (m : List (Nat × β)) (a k : Nat) (b : β)
    (h : a ≠ k) : look ((a, b) :: m) k = look m k := by
  simp [look, h]

/-- Inserting a key that currently looks up to none preserves every
defined lookup. -/
theorem look_mono_insert {β : Type} (m : List (Nat × β)) (a k : Nat)
    (b v : β) (hfresh : look m a = none) (h : look m k = some v) :
    look ((a, b) :: m) k = some v := by
  have hak : a ≠ k := by
    intro he
    subst he
    rw [hfresh] at h
    exact Option.noConfusion h
  rw [look_cons_ne m a k b hak]
  exact h

/-- Inserting any binding for a key not bound in m preserves lookups of
other keys; inserting for key a only changes the lookup of a. -/
theorem look_cons_of_ne {β : Type} (m : List (Nat × β)) (a k : Nat)
    (b : β) (h : k ≠ a) : look ((a, b) :: m) k = look m k := by
  have hak : a ≠ k := fun he => h he.symm
  simp [look, hak]

/-! ## The store

One record per logical table of the schema (section 4.1 of the spec):
revision(db_id, gdfo), ghost(db_id), parent(child, parent, parent_idx)
held as an ordered parent list per child, dotted_revno, and the two
mainline-range tables. -/

/-- A row of the dotted_revno table.  The revno column holds the parsed
dot-separated components. -/
structure DottedRow where
  tip : Nat
  merged : Nat
  revno : List Nat
  endOfMerge : Bool
  mergeDepth : Nat
  dist : Nat
deriving Repr, DecidableEq

/-- A row of mainline_parent_range: pkey, head, tail (NULL at the end of
history), count. -/
structure RangeRow where
  pkey : Nat
  head : Nat
  tail : Option Nat
  count : Nat
deriving Repr, DecidableEq

/-- A row of mainline_parent. -/
structure MlpRow where
  range : Nat
  revision : Nat
  dist : Nat
deriving Repr, DecidableEq

/-- The persisted database state. -/
structure Store where
  revGdfo : List (Nat × Nat)
  ghosts : List Nat
  parents : List (Nat × List Nat)
  dotted : List DottedRow
  ranges : List RangeRow
  mlp : List MlpRow
  nextRangeKey : Nat
deriving Repr, DecidableEq

def emptyStore : Store :=
  { revGdfo := [], ghosts := [], parents := [], dotted := [], ranges := [],
    mlp := [], nextRangeKey := 1 }

/-- SELECT parent FROM parent WHERE child = ? ORDER BY parent_idx -/
def getParentsS (s : Store) (c : Nat) : List Nat :=
  (look s.parents c).getD []

/-- Importer._get_lh_parent_db_id: the parent row with parent_idx = 0,
none when the revision has no parent rows. -/
def getLhParent (s : Store) (c : Nat) : Option Nat :=
  (look s.parents c).bind (fun ps => ps.head?)

/-- Importer._is_imported / Querier._is_imported_db_id: a db id is an imported
tip when a dotted_revno row with tip_revision = merged_revision
= the id exists. -/
def isImportedDbId (s : Store) (d : Nat) : Bool :=
  s.dotted.any (fun r => r.tip = d && r.merged = d)

/-! ## The repository oracle

get_parent_map, restricted to one key at a time: none models a ghost
(the key is omitted from the returned map), some ps the recorded parent
list.  NULL_PARENTS is normalised to the empty list, exactly as
_find_known_ancestors does with parent_map[rev_id] = (). -/

def Repo : Type := Nat → Option (List Nat)

/-- The parent list _find_known_ancestors ends up recording for a
revision it queries: () for ghosts and NULL_PARENTS roots, the oracle
list otherwise. -/
def specPm (repo : Repo) (r : Nat) : List Nat :=
  (repo r).getD []

/-! ## Importer._find_known_ancestors

Worklist walk from the new tip.  The Python list needed is popped from
the end; here the list head is the Python end.  all_needed is modelled
as the set of ids ever pushed (the source initialises it to
set(new_tip_rev_id), i.e. the characters of the id string, which for an
acyclic ancestry changes nothing because the tip is nobody's parent and
every pop is guarded by the known check). -/

structure FKState where
  needed : List Nat
  allNeeded : List Nat
  known : List (Nat × Nat)
  pm : List (Nat × List Nat)
  children : List (Nat × List Nat)
  store : Store
deriving Repr

/-- One child append: children.setdefault(parent_id, []).append(rev_id).
Keeps the per-parent lists in append order. -/
def childrenAdd (ch : List (Nat × List Nat)) (p c : Nat) : List (Nat × List Nat) :=
  (p, (lookD ch p []) ++ [c]) :: ch

/-- The for-loop over pmap[rev_id] at the bottom of
_find_known_ancestors: queue unseen parents and record child edges. -/
def fkAddParents (rev : Nat) : List Nat → FKState → FKState
  | [], st => st
  | p :: ps, st =>
      let st1 :=
        if memb p (st.known.map Prod.fst) then st
        else if memb p st.allNeeded then st
        else { st with needed := p :: st.needed, allNeeded := p :: st.allNeeded }
      fkAddParents rev ps { st1 with children := childrenAdd st1.children p rev }

/-- The SELECT-hit arm: the gdfo is already recorded; remember it. -/
def fkKnownHit (st : FKState) (rev g : Nat) : FKState :=
  { st with known := (rev, g) :: st.known }

/-- The ghost / NULL_PARENTS arm: record parent_map\[rev] = (), INSERT
the revision with gdfo 1 (plus the ghost row when the oracle omitted the
key), and wrap rev around to populate known from the fresh row. -/
def fkRecordRoot (st : FKState) (rev : Nat) (isGhost : Bool) : FKState :=
  { st with
    pm := (rev, []) :: st.pm,
    store := { st.store with
                revGdfo := (rev, 1) :: st.store.revGdfo,
                ghosts := if isGhost then setAdd st.store.ghosts rev
                          else st.store.ghosts },
    needed := rev :: st.needed }

/-- The recorded-parents arm: remember the parent list and queue the
parents. -/
def fkRecordParents (st : FKState) (rev p : Nat) (ps : List Nat) : FKState :=
  fkAddParents rev (p :: ps) { st with pm := (rev, p :: ps) :: st.pm }

/-- The body of the while needed loop of _find_known_ancestors. -/
def fkStep (repo : Repo) (st0 : FKState) (rev : Nat) (rest : List Nat) : FKState :=
  let st := { st0 with needed := rest }
  if memb rev (st.known.map Prod.fst) then st
  else
    match look st.store.revGdfo rev with
    | some g => fkKnownHit st rev g
    | none =>
      match repo rev with
      | none => fkRecordRoot st rev true
      | some [] => fkRecordRoot st rev false
      | some (p :: ps) => fkRecordParents st rev p ps

/-- while needed: fueled. -/
def fkLoop (repo : Repo) : Nat → FKState → FKState
  | 0, st => st
  | fuel + 1, st =>
      match st.needed with
      | [] => st
      | rev :: rest => fkLoop repo fuel (fkStep repo st rev rest)

/-- Importer._find_known_ancestors. -/
def findKnownAncestors (repo : Repo) (fuel : Nat) (s : Store) (tip : Nat) : FKState :=
  fkLoop repo fuel
    { needed := [tip], allNeeded := [tip], known := [], pm := [], children := [],
      store := s }

/-! ## Importer._compute_gdfo_and_insert -/

/-- The inner max loop over the parents of a child: -1 accumulator as in
the source; breaks (returns none) when a parent has no known gdfo yet. -/
def maxGdfo (known : List (Nat × Nat)) : List Nat → Int → Option Int
  | [], acc => some acc
  | p :: ps, acc =>
      match look known p with
      | none => none
      | some g => maxGdfo known ps (max acc (g : Int))

/-- child_gdfo = max_gdfo + 1 when every parent is known. -/
def childGdfo (known : List (Nat × Nat)) (ps : List Nat) : Option Nat :=
  (maxGdfo known ps (-1)).map (fun m => (m + 1).toNat)

/-- The for child_id in children.get(rev_id, []) loop: insert the gdfo
of each child whose parents are all known, queueing it.  pending is the
Python list with head = Python end (append is cons, pop is head). -/
def cgChildren (pmF : Nat → List Nat) :
    List Nat → List (Nat × Nat) → List (Nat × Nat) → Store →
    (List (Nat × Nat) × List (Nat × Nat) × Store)
  | [], known, pending, store => (known, pending, store)
  | c :: cs, known, pending, store =>
      match look known c with
      | some _ => cgChildren pmF cs known pending store
      | none =>
          match childGdfo known (pmF c) with
          | none => cgChildren pmF cs known pending store
          | some g =>
              cgChildren pmF cs ((c, g) :: known) ((g, c) :: pending)
                { store with revGdfo := (c, g) :: store.revGdfo }

/-- while pending: fueled. -/
def cgLoop (chF : Nat → List Nat) (pmF : Nat → List Nat) :
    Nat → List (Nat × Nat) → List (Nat × Nat) → Store →
    (List (Nat × Nat) × Store)
  | 0, known, _, store => (known, store)
  | _ + 1, known, [], store => (known, store)
  | fuel + 1, known, (_, rev) :: rest, store =>
      let r := cgChildren pmF (chF rev) known rest store
      cgLoop chF pmF fuel r.1 r.2.1 r.2.2

/-- Importer._compute_gdfo_and_insert: pending starts as the (gdfo, rev)
pairs of the known map. -/
def computeGdfoAndInsert (fk : FKState) (fuel : Nat) : List (Nat × Nat) × Store :=
  cgLoop (fun r => lookD fk.children r []) (fun c => lookD fk.pm c [])
    fuel fk.known (fk.known.map (fun kv => (kv.2, kv.1))) fk.store

/-! ## Importer._insert_parent_map -/

/-- Insert the discovered parent lists into the parent table, skipping
children whose rows are already recorded (the db parent map cache and
INSERT OR IGNORE make the insert idempotent per child). -/
def insertParentMap (s : Store) : List (Nat × List Nat) → Store
  | [] => s
  | (c, ps) :: rest =>
      let s1 :=
        if (look s.parents c).isSome then s
        else { s with parents := (c, ps) :: s.parents }
      insertParentMap s1 rest

/-- Importer._update_ancestry: discovery, gdfo, then parent rows. -/
def updateAncestry (repo : Repo) (fuel : Nat) (s : Store) (tip : Nat) :
    FKState × List (Nat × Nat) × Store :=
  let fk := findKnownAncestors repo fuel s tip
  let cg := computeGdfoAndInsert fk fuel
  let s2 := insertParentMap cg.2 fk.pm.reverse
  (fk, cg.1, s2)

/-! ## _IncrementalMergeSort

All ids below are database ids.  Python sets are lists, dicts are
association lists with the head shadowing the tail, and each while loop
takes explicit fuel. -/

/-- Lookup keyed by a branch key: the Python code keys
_branch_to_child_count either by the integer sentinel 0 (mainline) or by
the tuple revno\[:2].  none models the sentinel. -/
def lookB {β : Type} : List (Option (Nat × Nat) × β) → Option (Nat × Nat) → Option β
  | [], _ => none
  | (a, b) :: t, k => if a = k then some b else lookB t k

def lookBD {β : Type} (m : List (Option (Nat × Nat) × β)) (k : Option (Nat × Nat))
    (d : β) : β :=
  (lookB m k).getD d

/-- Add a revno tuple to the _known_dotted set. -/
def listAdd (kd : List (List Nat)) (r : List Nat) : List (List Nat) :=
  if r ∈ kd then kd else r :: kd

/-- _MergeSortNode.  _pending_parents is consumed from the Python end,
so pendingRev stores it reversed: the head is the next parent taken. -/
structure MSNode where
  key : Nat
  mergeDepth : Nat
  revno : List Nat
  endOfMerge : Bool
  leftParent : Option Nat
  leftPendingParent : Option Nat
  pendingRev : List Nat
  isFirst : Bool
deriving Repr, DecidableEq

/-- The mutable state of _IncrementalMergeSort.  dfs is
_depth_first_stack with the head as the stack top; scheduled is
_scheduled_stack with the head as the most recently popped node, which
is exactly the merge-sorted (tip-first) order that topo_order returns
after its reversal. -/
structure IncState where
  store : Store
  mainlineDbIds : List Nat
  importedMainlineId : Option Nat
  importedGdfo : Nat
  knownGdfo : List (Nat × Nat)
  interesting : List Nat
  importedDotted : List (Nat × (List Nat × Bool × Nat))
  knownDotted : List (List Nat)
  searchTips : List Nat
  revnoToBranchCount : List (Nat × Nat)
  branchToChildCount : List (Option (Nat × Nat) × Nat)
  seenParents : List Nat
  dfs : List MSNode
  scheduled : List MSNode
deriving Repr

def initIncState (s : Store) : IncState :=
  { store := s, mainlineDbIds := [], importedMainlineId := none,
    importedGdfo := 0, knownGdfo := [], interesting := [],
    importedDotted := [], knownDotted := [], searchTips := [],
    revnoToBranchCount := [], branchToChildCount := [], seenParents := [],
    dfs := [], scheduled := [] }

/-- Membership of a db id in _imported_dotted_revno. -/
def isImportedKey (st : IncState) (d : Nat) : Bool :=
  (look st.importedDotted d).isSome

/-- The branch key and mini revno of a dotted revno, as in
_is_first_child: a single component is the mainline branch (sentinel),
otherwise the key is revno\[:2] and the mini revno is revno\[2]. -/
def branchKeyMini (revno : List Nat) : Option (Nat × Nat) × Nat :=
  match revno with
  | [r] => (none, r)
  | r0 :: r1 :: rest => (some (r0, r1), rest.headD 0)
  | [] => (none, 0)

/-- _update_info_from_dotted_revno, one entry: record the dotted revno
and refresh the branch counters. -/
def updInfoOne (st : IncState) (e : Nat × (List Nat × Bool × Nat)) : IncState :=
  let revno := e.2.1
  let st := { st with importedDotted := e :: st.importedDotted,
                      knownDotted := listAdd st.knownDotted revno }
  let st :=
    match revno with
    | r0 :: r1 :: _ =>
        if (look st.revnoToBranchCount r0).isNone ∨ r1 > lookD st.revnoToBranchCount r0 0
        then { st with revnoToBranchCount := (r0, r1) :: st.revnoToBranchCount }
        else st
    | _ =>
        if (look st.revnoToBranchCount 0).isNone
        then { st with revnoToBranchCount := (0, 0) :: st.revnoToBranchCount }
        else st
  let bm := branchKeyMini revno
  if (lookB st.branchToChildCount bm.1).isNone ∨ bm.2 > lookBD st.branchToChildCount bm.1 0
  then { st with branchToChildCount := (bm.1, bm.2) :: st.branchToChildCount }
  else st

def updateInfoFromDotted (st : IncState) (info : List (Nat × (List Nat × Bool × Nat))) :
    IncState :=
  info.foldl updInfoOne st

/-- ORDER BY dist, by insertion sort. -/
def insertByDist (r : DottedRow) : List DottedRow → List DottedRow
  | [] => [r]
  | x :: xs => if r.dist < x.dist then r :: x :: xs else x :: insertByDist r xs

def sortByDist : List DottedRow → List DottedRow
  | [] => []
  | x :: xs => insertByDist x (sortByDist xs)

/-- _step_mainline: load the dotted_revno rows of the current imported
mainline tip, then move the pointer to its left-hand parent (joined with
revision for its gdfo); walking off the mainline sets the pointer to
None and the gdfo threshold to 0. -/
def stepMainline (st : IncState) : IncState :=
  let rows := sortByDist (st.store.dotted.filter
    (fun r => some r.tip = st.importedMainlineId))
  let st := updateInfoFromDotted st
    (rows.map (fun r => (r.merged, (r.revno, r.endOfMerge, r.mergeDepth))))
  match st.importedMainlineId with
  | none => { st with importedMainlineId := none, importedGdfo := 0 }
  | some cur =>
      match getLhParent st.store cur with
      | none => { st with importedMainlineId := none, importedGdfo := 0 }
      | some p =>
          match look st.store.revGdfo p with
          | none => { st with importedMainlineId := none, importedGdfo := 0 }
          | some g => { st with importedMainlineId := some p, importedGdfo := g,
                                knownGdfo := (p, g) :: st.knownGdfo }

/-- _find_needed_mainline: walk left-hand parents from the tip until an
already imported tip (or the end of history). -/
def fnmLoop (s : Store) : Nat → Option Nat → List Nat → (List Nat × Option Nat)
  | 0, dbId, acc => (acc.reverse, dbId)
  | _ + 1, none, acc => (acc.reverse, none)
  | fuel + 1, some d, acc =>
      if isImportedDbId s d then (acc.reverse, some d)
      else fnmLoop s fuel (getLhParent s d) (d :: acc)

def findNeededMainline (st : IncState) (tip : Nat) (fuel : Nat) : IncState :=
  let r := fnmLoop st.store fuel (some tip) []
  { st with mainlineDbIds := r.1,
            interesting := r.1.foldl setAdd st.interesting,
            importedMainlineId := r.2 }

/-- _get_initial_search_tips: the non-left parents (with their gdfo) of
every not-yet-imported mainline revision; then one mainline step. -/
def initialSearchTipRows (s : Store) (cs : List Nat) : List (Nat × Nat) :=
  cs.flatMap (fun c =>
    ((getParentsS s c).drop 1).filterMap
      (fun p => (look s.revGdfo p).map (fun g => (p, g))))

def getInitialSearchTips (st : IncState) : IncState :=
  let res := initialSearchTipRows st.store st.mainlineDbIds
  let st := { st with searchTips := (res.map Prod.fst).foldl setAdd [],
                      knownGdfo := res.reverse ++ st.knownGdfo }
  stepMainline st

/-- _split_search_tips_by_gdfo over one unknown list. -/
def sbgLoop (st : IncState) : List Nat → List Nat → (IncState × List Nat)
  | [], acc => (st, acc.reverse)
  | d :: ds, acc =>
      if isImportedKey st d ∨ some d = st.importedMainlineId then
        sbgLoop { st with searchTips := st.searchTips.filter (fun x => x ≠ d) } ds acc
      else if lookD st.knownGdfo d 0 ≥ st.importedGdfo then
        sbgLoop { st with interesting := setAdd st.interesting d } ds acc
      else
        sbgLoop st ds (d :: acc)

def splitByGdfo (st : IncState) (unknown : List Nat) : IncState × List Nat :=
  sbgLoop st unknown []

/-- The SELECT parent, child FROM parent WHERE parent IN unknown join. -/
def edgesFromParents (s : Store) (unknown : List Nat) : List (Nat × Nat) :=
  s.parents.flatMap (fun cp =>
    cp.2.filterMap (fun p => if memb p unknown then some (p, cp.1) else none))

/-- _split_interesting_using_children. -/
def splitUsingChildren (st : IncState) (unknown : List Nat) : IncState × List Nat :=
  let edges := edgesFromParents st.store unknown
  let alreadyImported := edges.foldl
    (fun ai e =>
      if isImportedKey st e.2 ∨ some e.2 = st.importedMainlineId
      then setAdd (setAdd ai e.1) e.2 else ai) []
  let ptc := edges.foldl (fun m e => childrenAdd m e.1 e.2) []
  let st := { st with searchTips := setDiff st.searchTips alreadyImported }
  let possibly0 := (edges.filterMap
    (fun e => if ¬ memb e.2 st.interesting ∧ ¬ memb e.1 alreadyImported
              then some e.2 else none)).foldl setAdd []
  let newGdfo := possibly0.filterMap
    (fun c => if (look st.knownGdfo c).isNone
              then (look st.store.revGdfo c).map (fun g => (c, g)) else none)
  let st := { st with knownGdfo := newGdfo.reverse ++ st.knownGdfo }
  let possibly := possibly0.filter (fun c => lookD st.knownGdfo c 0 < st.importedGdfo)
  let r := unknown.foldl
    (fun (p : IncState × List Nat) parent =>
      if memb parent alreadyImported then p
      else if (lookD ptc parent []).any (fun c => memb c possibly)
      then (p.1, parent :: p.2)
      else ({ p.1 with interesting := setAdd p.1.interesting parent }, p.2))
    (st, [])
  (r.1, r.2.reverse)

/-- _step_search_tips: move every search tip to its parents (joined with
revision for gdfo), dropping parents already known interesting. -/
def stepSearchTips (st : IncState) : IncState :=
  let res := st.searchTips.flatMap (fun c =>
    (getParentsS st.store c).filterMap
      (fun p => (look st.store.revGdfo p).map (fun g => (p, g))))
  { st with
    searchTips := (res.filterMap
      (fun e => if ¬ memb e.1 st.interesting then some e.1 else none)).foldl setAdd [],
    knownGdfo := res.reverse ++ st.knownGdfo }

/-- _ensure_lh_parent_info: left-hand parents of interesting revisions
must be interesting themselves or loaded in _imported_dotted_revno;
ghosts excepted.  Steps the mainline until none is missing. -/
def missingLhParents (st : IncState) : List Nat :=
  let m := st.interesting.foldl
    (fun m d =>
      match getParentsS st.store d with
      | [] => m
      | lh :: _ =>
          if memb lh st.interesting then m
          else if isImportedKey st lh then m
          else setAdd m lh) []
  setDiff m st.store.ghosts

def elpLoop (st : IncState) : Nat → List Nat → IncState
  | 0, _ => st
  | _ + 1, [] => st
  | fuel + 1, missing =>
      let st := stepMainline st
      elpLoop st fuel (missing.filter (fun d => ¬ isImportedKey st d))

def ensureLhParentInfo (st : IncState) (fuel : Nat) : IncState :=
  elpLoop st fuel (missingLhParents st)

/-- The inner classification loop of _find_interesting_ancestry. -/
def fiaInner (st : IncState) : Nat → List Nat → IncState
  | 0, _ => st
  | _ + 1, [] => st
  | fuel + 1, unknown =>
      let r1 := splitByGdfo st unknown
      match r1.2 with
      | [] => r1.1
      | u1 =>
          let r2 := splitUsingChildren r1.1 u1
          match r2.2 with
          | [] => r2.1
          | u2 => fiaInner (stepMainline r2.1) fuel u2

/-- The outer while search_tips loop. -/
def fiaOuter (st : IncState) : Nat → IncState
  | 0 => st
  | fuel + 1 =>
      match st.searchTips with
      | [] => st
      | tips =>
          let st := fiaInner st (fuel + 1) tips
          fiaOuter (stepSearchTips st) fuel

/-- _find_interesting_ancestry. -/
def findInterestingAncestry (st : IncState) (tip : Nat) (fuel : Nat) : IncState :=
  let st := findNeededMainline st tip fuel
  let st := getInitialSearchTips st
  let st := fiaOuter st fuel
  ensureLhParentInfo st fuel

/-- _is_first_child: false once the parent was seen in this walk; the
parent is then recorded as seen.  When the parent was merged before, a
larger mini revno recorded for its branch means a child was seen. -/
def isFirstChild (st : IncState) (p : Nat) : Bool × IncState :=
  if memb p st.seenParents then (false, st)
  else
    let st := { st with seenParents := p :: st.seenParents }
    match look st.importedDotted p with
    | none => (true, st)
    | some e =>
        let bm := branchKeyMini e.1
        if lookBD st.branchToChildCount bm.1 0 > bm.2 then (false, st)
        else (true, st)

/-- _push_node: uninteresting ids are dropped; a ghost left-hand parent
is cleared to None with is_first = True; pending parents exclude
ghosts. -/
def pushNode (st : IncState) (dbId mergeDepth : Nat) : IncState :=
  if ¬ memb dbId st.interesting then st
  else
    let ps := getParentsS st.store dbId
    let r : Option Nat × Bool × IncState :=
      match ps with
      | [] => (none, true, st)
      | l :: _ =>
          if memb l st.store.ghosts then (none, true, st)
          else
            let fc := isFirstChild st l
            (some l, fc.1, fc.2)
    let pending := ((ps.drop 1).filter (fun p => ¬ memb p st.store.ghosts)).reverse
    let node : MSNode :=
      { key := dbId, mergeDepth := mergeDepth, revno := [], endOfMerge := false,
        leftParent := r.1, leftPendingParent := r.1, pendingRev := pending,
        isFirst := r.2.1 }
    { r.2.2 with dfs := node :: r.2.2.dfs }

/-- _step_to_latest_branch: step the imported mainline until the base
revision itself or the first revision of its newest known sub-branch has
been loaded. -/
def stepToLatestBranch (st : IncState) (base : Nat) : Nat → IncState
  | 0 => st
  | fuel + 1 =>
      match st.importedMainlineId with
      | none => st
      | some _ =>
          if [base] ∈ st.knownDotted then st
          else
            let bc := lookD st.revnoToBranchCount base 0
            if [base, bc, 1] ∈ st.knownDotted then st
            else stepToLatestBranch (stepMainline st) base fuel

/-- The revno allocation of _pop_node together with its counter
updates.  The lookup of the left-hand parent in _imported_dotted_revno
cannot fail after _ensure_lh_parent_info; the \[] default models the
unreachable KeyError arm. -/
def popRevno (st : IncState) (node : MSNode) (stlFuel : Nat) : List Nat × IncState :=
  match node.leftParent with
  | some lp =>
      let pr := ((look st.importedDotted lp).map (fun t => t.1)).getD []
      if node.isFirst then
        match pr with
        | [r] =>
            let m := r + 1
            ([m],
              if m > lookBD st.branchToChildCount none 0
              then { st with branchToChildCount := (none, m) :: st.branchToChildCount }
              else st)
        | _ => (pr.take 2 ++ [pr.getD 2 0 + 1], st)
      else
        let st := if pr.length > 1 then stepToLatestBranch st (pr.headD 0) stlFuel else st
        let base := pr.headD 0
        let bc := lookD st.revnoToBranchCount base 0 + 1
        ([base, bc, 1],
          { st with revnoToBranchCount := (base, bc) :: st.revnoToBranchCount })
  | none =>
      let st := stepToLatestBranch st 0 stlFuel
      let bc := match look st.revnoToBranchCount 0 with | none => 0 | some k => k + 1
      let st := { st with revnoToBranchCount := (0, bc) :: st.revnoToBranchCount }
      if bc = 0 then
        ([1], { st with branchToChildCount := (none, 1) :: st.branchToChildCount })
      else ([0, bc, 1], st)

/-- The end_of_merge decision of _pop_node. -/
def popEom (st : IncState) (node : MSNode) : Bool :=
  match st.scheduled with
  | [] => !(node.leftParent.isSome && node.mergeDepth == 0)
  | prev :: _ =>
      if prev.mergeDepth < node.mergeDepth then true
      else if prev.mergeDepth = node.mergeDepth ∧
              ¬ prev.key ∈ getParentsS st.store node.key then true
      else false

/-- _pop_node: move the stack top to the scheduled stack with its revno
and end_of_merge, recording it in _imported_dotted_revno and
_known_dotted. -/
def popNode (st : IncState) (stlFuel : Nat) : IncState :=
  match st.dfs with
  | [] => st
  | node :: rest =>
      let st := { st with dfs := rest }
      let rv := popRevno st node stlFuel
      let st := rv.2
      let eom := popEom st node
      let node' := { node with revno := rv.1, endOfMerge := eom, pendingRev := [] }
      { st with
        importedDotted := (node.key, (rv.1, eom, node.mergeDepth)) :: st.importedDotted,
        knownDotted := listAdd st.knownDotted rv.1,
        scheduled := node' :: st.scheduled }

/-- The inner while of _compute_merge_sort: consume the pending parents
of the stack top until one is pushed (already merged ids are skipped;
the left-hand pending parent goes first). -/
def innerPending (st : IncState) (last : MSNode) (rest : List MSNode) :
    List Nat → IncState
  | [] => { st with dfs := { last with pendingRev := [] } :: rest }
  | nxt :: more =>
      let last' := { last with pendingRev := more }
      let st' := { st with dfs := last' :: rest }
      if isImportedKey st' nxt then innerPending st' last' rest more
      else
        pushNode st' nxt
          (if some nxt = last'.leftParent then last'.mergeDepth
           else last'.mergeDepth + 1)

def innerLoop (st : IncState) (last : MSNode) (rest : List MSNode) : IncState :=
  match last.leftPendingParent with
  | some nxt =>
      let last' := { last with leftPendingParent := none }
      let st' := { st with dfs := last' :: rest }
      if isImportedKey st' nxt then innerPending st' last' rest last'.pendingRev
      else
        pushNode st' nxt
          (if some nxt = last'.leftParent then last'.mergeDepth
           else last'.mergeDepth + 1)
  | none => innerPending st last rest last.pendingRev

/-- The outer while of _compute_merge_sort. -/
def msOuter (stlFuel : Nat) : Nat → IncState → IncState
  | 0, st => st
  | fuel + 1, st =>
      match st.dfs with
      | [] => st
      | last :: rest =>
          if last.leftPendingParent = none ∧ last.pendingRev = [] then
            msOuter stlFuel fuel (popNode st stlFuel)
          else
            msOuter stlFuel fuel (innerLoop st last rest)

/-- _compute_merge_sort. -/
def computeMergeSort (st : IncState) (fuel : Nat) : IncState :=
  let st := { st with dfs := [], scheduled := [], seenParents := [] }
  match st.mainlineDbIds with
  | [] => st
  | m0 :: _ => msOuter fuel fuel (pushNode st m0 0)

/-- topo_order: the scheduled stack read newest-first, which is the
reversal the source performs. -/
def topoOrder (s : Store) (tipDbId : Nat) (fuel : Nat) : List MSNode :=
  let st := initIncState s
  let st := findInterestingAncestry st tipDbId fuel
  (computeMergeSort st fuel).scheduled

/-! ## Importer: inserting dotted revno rows and importing a tip -/

/-- Modelled from the spec: history_db_schema.create_dotted_revnos is in
the schema module, which is not part of the sources here.  Per section
4.1 the dotted_revno table is UNIQUE(tip, merged), so inserting a row
whose (tip, merged) pair already exists raises IntegrityError, modelled
as none. -/
def createDottedRevnos (s : Store) (rows : List DottedRow) : Option Store :=
  if rows.any (fun r => s.dotted.any (fun r0 => r0.tip = r.tip && r0.merged = r.merged))
  then none
  else some { s with dotted := s.dotted ++ rows }

/-- The (tip, merged, revno, end_of_merge, merge_depth, dist) rows that
Importer._insert_nodes builds, dist being the enumerate position. -/
def mkRows (tip : Nat) (nodes : List MSNode) : List DottedRow :=
  nodes.enum.map (fun din =>
    ({ tip := tip, merged := din.2.key, revno := din.2.revno,
       endOfMerge := din.2.endOfMerge, mergeDepth := din.2.mergeDepth,
       dist := din.1 } : DottedRow))

/-- Importer._insert_nodes: insert the rows for the nodes merged into
tip; an IntegrityError means another writer already inserted them and
yields False. -/
def insertNodes (s : Store) (tip : Nat) (nodes : List MSNode) : Bool × Store :=
  match createDottedRevnos s (mkRows tip nodes) with
  | none => (false, s)
  | some s2 => (true, s2)

/-- Importer._MAINLINE_PARENT_RANGE_LEN. -/
def mainlineRangeLen : Nat := 100

/-- Importer._get_mainline_range_count: the range with the given head of
largest count (ORDER BY count DESC LIMIT 1). -/
def bestRange (s : Store) (d : Nat) : Option RangeRow :=
  s.ranges.foldl
    (fun best r =>
      if r.head = d then
        match best with
        | none => some r
        | some b => if r.count > b.count then some r else some b
      else best) none

def insertMlpByDistDesc (r : MlpRow) : List MlpRow → List MlpRow
  | [] => [r]
  | x :: xs => if r.dist > x.dist then r :: x :: xs else x :: insertMlpByDistDesc r xs

def sortMlpByDistDesc : List MlpRow → List MlpRow
  | [] => []
  | x :: xs => insertMlpByDistDesc x (sortMlpByDistDesc xs)

def insertMlpByDistAsc (r : MlpRow) : List MlpRow → List MlpRow
  | [] => [r]
  | x :: xs => if r.dist < x.dist then r :: x :: xs else x :: insertMlpByDistAsc r xs

def sortMlpByDistAsc : List MlpRow → List MlpRow
  | [] => []
  | x :: xs => insertMlpByDistAsc x (sortMlpByDistAsc xs)

/-- Importer._get_mainline_range: the revisions of a range ORDER BY dist
DESC. -/
def getMainlineRange (s : Store) (key : Nat) : List Nat :=
  (sortMlpByDistDesc (s.mlp.filter (fun m => m.range = key))).map (fun m => m.revision)

/-- Importer._insert_range: a new mainline_parent_range row (the range
key is the autoincrement rowid) plus one mainline_parent row per member,
dist being the enumerate position. -/
def insertRange (s : Store) (rangeDbIds : List Nat) (tail : Option Nat) : Store :=
  match rangeDbIds with
  | [] => s
  | h :: _ =>
      let key := s.nextRangeKey
      { s with
        ranges := s.ranges ++
          [{ pkey := key, head := h, tail := tail, count := rangeDbIds.length }],
        mlp := s.mlp ++ rangeDbIds.enum.map
          (fun di => { range := key, revision := di.2, dist := di.1 }),
        nextRangeKey := key + 1 }

/-- The walk of Importer._build_one_mainline: collect left-hand
ancestors newest first until an existing range head is found; a
sub-maximal existing range is absorbed (its members appended as the
source does, in dist-descending order) and the walk resumes from its
tail. -/
def bomWalk (s : Store) : Nat → Option Nat → List Nat → (List Nat × Option Nat)
  | 0, cur, acc => (acc, cur)
  | _ + 1, none, acc => (acc, none)
  | fuel + 1, some d, acc =>
      match bestRange s d with
      | some r =>
          if acc ≠ [] ∧ r.count < mainlineRangeLen then
            (acc ++ getMainlineRange s r.pkey, r.tail)
          else (acc, some d)
      | none => bomWalk s fuel (getLhParent s d) (acc ++ [d])

/-- The chunking loop of _build_one_mainline: repeatedly insert the last
(oldest) mainlineRangeLen collected ids as a range whose tail is the
current cursor, then continue with the head of the inserted chunk as the
new tail. -/
def bomChunk (s : Store) : Nat → List Nat → Option Nat → Store
  | 0, _, _ => s
  | fuel + 1, ids, cur =>
      if ids = [] then s
      else
        let tailIds := ids.drop (ids.length - mainlineRangeLen)
        let rest := ids.take (ids.length - mainlineRangeLen)
        let s2 := insertRange s tailIds cur
        bomChunk s2 fuel rest tailIds.head?

/-- Importer._build_one_mainline. -/
def buildOneMainline (s : Store) (head : Nat) (fuel : Nat) : Store :=
  let w := bomWalk s fuel (some head) []
  bomChunk s fuel w.1 w.2

/-- The per-mainline-segment insertion loop of Importer._import_tip.
The Bool reports whether an IntegrityError was seen (after which the
loop breaks but the import continues with the mainline ranges). -/
def importLoop (s : Store) (lastTip : Nat) (newNodes : List MSNode) :
    List MSNode → Store × Bool
  | [] =>
      if newNodes = [] then (s, false)
      else
        match insertNodes s lastTip newNodes with
        | (ok, s2) => (s2, !ok)
  | n :: rest =>
      if n.mergeDepth = 0 then
        match insertNodes s lastTip newNodes with
        | (true, s2) => importLoop s2 n.key [n] rest
        | (false, s2) => (s2, true)
      else importLoop s lastTip (newNodes ++ [n]) rest

/-- Importer._import_tip: split the merge-sorted list into segments per
mainline revision, insert each segment under that mainline tip, then
extend the mainline ranges for the new branch tip. -/
def importTip (s : Store) (ms : List MSNode) (tipRevId : Nat) (fuel : Nat) :
    Store × Bool :=
  match ms with
  | [] => (buildOneMainline s tipRevId fuel, false)
  | n :: rest =>
      let r := importLoop s n.key [n] rest
      (buildOneMainline r.1 tipRevId fuel, r.2)

/-- Importer.do_import with incremental=True (the path the Querier
uses): update the ancestry, run the incremental sorter, insert the rows
and ranges, and commit.  The returned store is the committed state. -/
def doImportInc (repo : Repo) (s : Store) (tip : Nat) (fuel : Nat) : Store × Bool :=
  let ua := updateAncestry repo fuel s tip
  let s1 := ua.2.2
  let ms := topoOrder s1 tip fuel
  importTip s1 ms tip fuel

/-- Importer.do_import with incremental=False: the merge-sorted list ms
and the parent map pm come from the external known-graph merge sort
of the whole ancestry; _update_parents records the parent rows, then
_import_tip inserts per segment and do_import commits whatever state the import
produced. -/
def doImportFull (s : Store) (pm : List (Nat × List Nat)) (ms : List MSNode)
    (tip : Nat) (fuel : Nat) : Store × Bool :=
  let s1 := insertParentMap s pm
  importTip s1 ms tip fuel

/-! ## FullMergeSorter (reference) -/

/-- Modelled from the spec: the FullMergeSorter of section 4.5 is not in
the sources (the code calls the external known-graph merge_sort), so it
is built from the specification text: a depth-first walk pushing the
left-hand parent first and the other parents in reverse order; a node is
numbered when popped. -/
structure FMNode where
  key : Nat
  mergeDepth : Nat
  revno : List Nat
  endOfMerge : Bool
  leftParent : Option Nat
  leftPending : Option Nat
  pendingRev : List Nat
deriving Repr, DecidableEq

/-- Modelled from the spec: state of the reference sorter.  rootDone
records that the very first mainline revision has been numbered (1,);
rootBranches counts new-root sub-branches; branchCount counts the
sub-branches already rooted at each mainline revno. -/
structure FMState where
  dfs : List FMNode
  scheduled : List FMNode
  branchCount : List (Nat × Nat)
  rootDone : Bool
  rootBranches : Nat
deriving Repr

/-- Modelled from the spec: the last component of the parent revno is
incremented for a first child. -/
def incLast : List Nat → List Nat
  | [] => []
  | [r] => [r + 1]
  | r :: rest => r :: incLast rest

def fmPush (g : Nat → List Nat) (st : FMState) (key depth : Nat) : FMState :=
  let ps := g key
  let node : FMNode :=
    { key := key, mergeDepth := depth, revno := [], endOfMerge := false,
      leftParent := ps.head?, leftPending := ps.head?,
      pendingRev := (ps.drop 1).reverse }
  { st with dfs := node :: st.dfs }

/-- Modelled from the spec: revno allocation on pop.  A node with a
left-hand parent is a first child when no earlier-numbered revision has
that parent as its left-hand parent; otherwise a new sub-branch
(base, branch_count + 1, 1) is opened.  A parent-less node is the very
first mainline revision, numbered (1,), or a new root numbered
(0, n, 1). -/
def fmPopRevno (st : FMState) (node : FMNode) : List Nat × FMState :=
  match node.leftParent with
  | some p =>
      let pr := ((st.scheduled.find? (fun m => m.key == p)).map
        (fun m => m.revno)).getD []
      if st.scheduled.all (fun m => m.leftParent ≠ some p) then
        (incLast pr, st)
      else
        let base := pr.headD 0
        let n := lookD st.branchCount base 0
        ([base, n + 1, 1], { st with branchCount := (base, n + 1) :: st.branchCount })
  | none =>
      if st.rootDone then
        ([0, st.rootBranches + 1, 1], { st with rootBranches := st.rootBranches + 1 })
      else ([1], { st with rootDone := true })

/-- Modelled from the spec: end_of_merge is true iff the next scheduled
node is at lesser merge depth or is not a parent of the current node at
the same depth. -/
def fmPopEom (g : Nat → List Nat) (st : FMState) (node : FMNode) : Bool :=
  match st.scheduled with
  | [] => !(node.leftParent.isSome && node.mergeDepth == 0)
  | prev :: _ =>
      if prev.mergeDepth < node.mergeDepth then true
      else if prev.mergeDepth = node.mergeDepth ∧ ¬ prev.key ∈ g node.key then true
      else false

def fmPop (g : Nat → List Nat) (st : FMState) : FMState :=
  match st.dfs with
  | [] => st
  | node :: rest =>
      let st := { st with dfs := rest }
      let rv := fmPopRevno st node
      let st := rv.2
      let eom := fmPopEom g st node
      { st with scheduled :=
          { node with revno := rv.1, endOfMerge := eom, pendingRev := [] } :: st.scheduled }

def fmInnerPending (g : Nat → List Nat) (st : FMState) (last : FMNode)
    (rest : List FMNode) : List Nat → FMState
  | [] => { st with dfs := { last with pendingRev := [] } :: rest }
  | nxt :: more =>
      let last' := { last with pendingRev := more }
      let st' := { st with dfs := last' :: rest }
      if st'.scheduled.any (fun m => m.key == nxt) then
        fmInnerPending g st' last' rest more
      else
        fmPush g st' nxt
          (if some nxt = last'.leftParent then last'.mergeDepth
           else last'.mergeDepth + 1)

def fmInner (g : Nat → List Nat) (st : FMState) (last : FMNode)
    (rest : List FMNode) : FMState :=
  match last.leftPending with
  | some nxt =>
      let last' := { last with leftPending := none }
      let st' := { st with dfs := last' :: rest }
      if st'.scheduled.any (fun m => m.key == nxt) then
        fmInnerPending g st' last' rest last'.pendingRev
      else
        fmPush g st' nxt
          (if some nxt = last'.leftParent then last'.mergeDepth
           else last'.mergeDepth + 1)
  | none => fmInnerPending g st last rest last.pendingRev

def fmLoop (g : Nat → List Nat) : Nat → FMState → FMState
  | 0, st => st
  | fuel + 1, st =>
      match st.dfs with
      | [] => st
      | last :: rest =>
          if last.leftPending = none ∧ last.pendingRev = [] then
            fmLoop g fuel (fmPop g st)
          else fmLoop g fuel (fmInner g st last rest)

/-- Modelled from the spec: the full reference merge sort of the
ancestry of tip, emitted tip first; dist is the position from the
tip. -/
def fullMergeSort (g : Nat → List Nat) (tip : Nat) (fuel : Nat) : List FMNode :=
  let st : FMState :=
    { dfs := [], scheduled := [], branchCount := [], rootDone := false,
      rootBranches := 0 }
  (fmLoop g fuel (fmPush g st tip 0)).scheduled

/-- The comparable content of a reference row: (merged, revno,
end_of_merge, merge_depth, dist). -/
def fmRows (g : Nat → List Nat) (tip : Nat) (fuel : Nat) :
    List (Nat × List Nat × Bool × Nat × Nat) :=
  (fullMergeSort g tip fuel).enum.map
    (fun dn => (dn.2.key, dn.2.revno, dn.2.endOfMerge, dn.2.mergeDepth, dn.1))

/-- The comparable content of a stored row. -/
def rowTuple (r : DottedRow) : Nat × List Nat × Bool × Nat × Nat :=
  (r.merged, r.revno, r.endOfMerge, r.mergeDepth, r.dist)

/-- The rows of a dotted_revno table with the given tip. -/
def rowsFor (d : List DottedRow) (tip : Nat) : List (Nat × List Nat × Bool × Nat × Nat) :=
  d.filterMap (fun r => if r.tip = tip then some (rowTuple r) else none)

/-- The stored rows for one tip, in the same shape. -/
def storedRows (s : Store) (tip : Nat) : List (Nat × List Nat × Bool × Nat × Nat) :=
  rowsFor s.dotted tip

/-! ## Querier

Python name resolution is part of the embedding where the source
references names that are not bound: an expression evaluates its names
against the local scope (modelled as an association list of the names
that are actually bound there), and an unbound name raises NameError
before any query runs. -/

inductive PyErr where
  | nameError
deriving Repr, DecidableEq

/-- The Python names that appear in the two queries below. -/
inductive PyName where
  | revision_id
  | revid
  | head_db_id
  | tip_db_id
deriving Repr, DecidableEq

def lookupName : List (PyName × Nat) → PyName → Option Nat
  | [], _ => none
  | (a, b) :: t, k => if a = k then some b else lookupName t k

/-- The SQL body of Querier.get_children: children of the revision with
the given id, joining parent with revision on both sides. -/
def getChildrenQuery (s : Store) (p : Nat) : List Nat :=
  s.parents.filterMap (fun cp =>
    if memb p cp.2 && (look s.revGdfo cp.1).isSome && (look s.revGdfo p).isSome
    then some cp.1 else none)

/-- Querier.get_children.  The parameter tuple passed to the query is
evaluated in a scope binding only self, revision_id and cursor; the
source writes the name revid there, which is bound neither locally nor
at module level, so evaluation raises NameError before the query
executes. -/
def getChildren (s : Store) (revision_id : Nat) : Except PyErr (List Nat) :=
  let locals : List (PyName × Nat) := [(PyName.revision_id, revision_id)]
  match lookupName locals PyName.revid with
  | none => Except.error PyErr.nameError
  | some v => Except.ok (getChildrenQuery s v)

/-- Querier._get_range_key_and_tail: the best range with the given head,
or no range and the single left-hand parent. -/
def getRangeKeyAndTail (s : Store) (tip : Nat) : Option Nat × Option Nat :=
  match bestRange s tip with
  | none => (none, getLhParent s tip)
  | some r => (some r.pkey, r.tail)

/-- Querier._get_mainline_range_starting_at.  Its parameter is
head_db_id, but the body calls _get_range_key_and_tail(tip_db_id) where
tip_db_id is bound neither locally nor at module level: NameError. -/
def getMainlineRangeStartingAt (s : Store) (head_db_id : Nat) :
    Except PyErr (Option (List Nat) × Option Nat) :=
  let locals : List (PyName × Nat) := [(PyName.head_db_id, head_db_id)]
  match lookupName locals PyName.tip_db_id with
  | none => Except.error PyErr.nameError
  | some d =>
      let rk := getRangeKeyAndTail s d
      match rk.1 with
      | none => Except.ok (none, rk.2)
      | some key =>
          Except.ok
            (some ((sortMlpByDistAsc (s.mlp.filter (fun m => m.range = key))).map
              (fun m => m.revision)), rk.2)

/-- Query operations a Querier method performs, for the call-order
properties: ensureTip is the ensure_branch_tip call, readRows any row
read. -/
inductive QOp where
  | ensureTip
  | readRows
deriving Repr, DecidableEq

/-- The while db_id loop of Querier.walk_mainline: each iteration asks
_get_mainline_range_starting_at, which raises.  The trace lists the row
reads performed before the error. -/
def walkMainlineLoop (s : Store) : Nat → Option Nat → List Nat → List QOp →
    (List QOp × Except PyErr (List Nat))
  | 0, _, acc, tr => (tr, Except.ok acc)
  | _ + 1, none, acc, tr => (tr, Except.ok acc)
  | fuel + 1, some d, acc, tr =>
      match getMainlineRangeStartingAt s d with
      | Except.error e => (tr, Except.error e)
      | Except.ok (none, nxt) =>
          walkMainlineLoop s fuel nxt (acc ++ [d]) (tr ++ [QOp.readRows])
      | Except.ok (some rng, nxt) =>
          walkMainlineLoop s fuel nxt (acc ++ rng) (tr ++ [QOp.readRows])

/-- Querier.walk_mainline: resolve the branch tip to a db id (itself a
row read) and follow ranges.  No ensure_branch_tip call is made. -/
def walkMainline (s : Store) (branchTip : Nat) (fuel : Nat) :
    List QOp × Except PyErr (List Nat) :=
  match look s.revGdfo branchTip with
  | none => ([QOp.readRows], Except.ok [])
  | some _ => walkMainlineLoop s fuel (some branchTip) [] [QOp.readRows]

/-- Stepping one left-hand parent at a time from the tip: the reference
sequence walk_mainline is specified to reproduce. -/
def lhWalk (s : Store) : Nat → Option Nat → List Nat
  | 0, _ => []
  | _ + 1, none => []
  | fuel + 1, some d => d :: lhWalk s fuel (getLhParent s d)

/-- Querier.ensure_branch_tip: when the branch tip is unknown or not yet
an imported tip, run the Importer (imp is the locked import step). -/
def ensureBranchTip (imp : Store → Store) (s : Store) (tip : Nat) : Store :=
  match look s.revGdfo tip with
  | none => imp s
  | some d => if isImportedDbId s d then s else imp s

/-- The rows read by one get_dotted_revnos step: by tip alone, or by all
members of the range. -/
def gdrQuery (s : Store) (rangeKey : Option Nat) (tip : Nat) (dbIds : List Nat) :
    List (Nat × List Nat) :=
  match rangeKey with
  | none => s.dotted.filterMap (fun r =>
      if r.tip = tip && memb r.merged dbIds then some (r.merged, r.revno) else none)
  | some key => s.dotted.filterMap (fun r =>
      if s.mlp.any (fun m => m.range = key && m.revision = r.tip) && memb r.merged dbIds
      then some (r.merged, r.revno) else none)

def gdrLoop (s : Store) : Nat → Option Nat → List Nat → List (Nat × List Nat) →
    List QOp → (List QOp × List (Nat × List Nat))
  | 0, _, _, acc, tr => (tr, acc)
  | _ + 1, none, _, acc, tr => (tr, acc)
  | fuel + 1, some tip, dbIds, acc, tr =>
      if dbIds = [] then (tr, acc)
      else
        let rk := getRangeKeyAndTail s tip
        let found := gdrQuery s rk.1 tip dbIds
        gdrLoop s fuel rk.2
          (dbIds.filter (fun d => ¬ found.any (fun f => f.1 = d)))
          (acc ++ found) (tr ++ [QOp.readRows])

/-- Querier.get_dotted_revnos: ensure_branch_tip first, then walk the
mainline by ranges collecting the requested revnos. -/
def getDottedRevnos (imp : Store → Store) (s : Store) (branchTip : Nat)
    (revIds : List Nat) (fuel : Nat) : List QOp × List (Nat × List Nat) :=
  let s2 := ensureBranchTip imp s branchTip
  match look s2.revGdfo branchTip with
  | none => ([QOp.ensureTip], [])
  | some tip =>
      let r := gdrLoop s2 fuel (some tip) revIds [] []
      (QOp.ensureTip :: r.1, r.2)

/-- The rows read by one get_revision_ids step, keyed by revno. -/
def griQuery (s : Store) (rangeKey : Option Nat) (tip : Nat)
    (revnos : List (List Nat)) : List (Nat × List Nat) :=
  match rangeKey with
  | none => s.dotted.filterMap (fun r =>
      if r.tip = tip && decide (r.revno ∈ revnos) then some (r.merged, r.revno) else none)
  | some key => s.dotted.filterMap (fun r =>
      if s.mlp.any (fun m => m.range = key && m.revision = r.tip)
         && decide (r.revno ∈ revnos)
      then some (r.merged, r.revno) else none)

def griLoop (s : Store) : Nat → Option Nat → List (List Nat) →
    List (Nat × List Nat) → List QOp → (List QOp × List (Nat × List Nat))
  | 0, _, _, acc, tr => (tr, acc)
  | _ + 1, none, _, acc, tr => (tr, acc)
  | fuel + 1, some tip, revnos, acc, tr =>
      if revnos = [] then (tr, acc)
      else
        let rk := getRangeKeyAndTail s tip
        let found := griQuery s rk.1 tip revnos
        griLoop s fuel rk.2
          (revnos.filter (fun v => ¬ found.any (fun f => f.2 = v)))
          (acc ++ found) (tr ++ [QOp.readRows])

/-- Querier.get_revision_ids: ensure_branch_tip first, then map revnos
back to revision ids down the mainline. -/
def getRevisionIds (imp : Store → Store) (s : Store) (branchTip : Nat)
    (revnos : List (List Nat)) (fuel : Nat) : List QOp × List (Nat × List Nat) :=
  let s2 := ensureBranchTip imp s branchTip
  match look s2.revGdfo branchTip with
  | none => ([QOp.ensureTip], [])
  | some tip =>
      let r := griLoop s2 fuel (some tip) revnos [] []
      (QOp.ensureTip :: r.1, r.2)

/-- The rows read by one get_mainline_where_merged step: pairs of the
mainline tip and the merged revision. -/
def gmwQuery (s : Store) (rangeKey : Option Nat) (tip : Nat) (dbIds : List Nat) :
    List (Nat × Nat) :=
  match rangeKey with
  | none => s.dotted.filterMap (fun r =>
      if r.tip = tip && memb r.merged dbIds then some (r.tip, r.merged) else none)
  | some key => s.dotted.filterMap (fun r =>
      if s.mlp.any (fun m => m.range = key && m.revision = r.tip) && memb r.merged dbIds
      then some (r.tip, r.merged) else none)

def gmwLoop (s : Store) : Nat → Option Nat → List Nat → List (Nat × Nat) →
    List QOp → (List QOp × List (Nat × Nat))
  | 0, _, _, acc, tr => (tr, acc)
  | _ + 1, none, _, acc, tr => (tr, acc)
  | fuel + 1, some tip, dbIds, acc, tr =>
      if dbIds = [] then (tr, acc)
      else
        let rk := getRangeKeyAndTail s tip
        let found := gmwQuery s rk.1 tip dbIds
        gmwLoop s fuel rk.2
          (dbIds.filter (fun d => ¬ found.any (fun f => f.2 = d)))
          (acc ++ found) (tr ++ [QOp.readRows])

/-- Querier.get_mainline_where_merged: ensure_branch_tip first. -/
def getMainlineWhereMerged (imp : Store → Store) (s : Store) (branchTip : Nat)
    (revIds : List Nat) (fuel : Nat) : List QOp × List (Nat × Nat) :=
  let s2 := ensureBranchTip imp s branchTip
  match look s2.revGdfo branchTip with
  | none => ([QOp.ensureTip], [])
  | some tip =>
      let r := gmwLoop s2 fuel (some tip) revIds [] []
      (QOp.ensureTip :: r.1, r.2)

/-- Querier._find_tip_containing: walk backwards until the tip whose
rows contain the merged revision (a tip contains itself). -/
def ftcLoop (s : Store) (m : Nat) : Nat → Option Nat → List QOp →
    (List QOp × Option Nat)
  | 0, cur, tr => (tr, cur)
  | _ + 1, none, tr => (tr, none)
  | fuel + 1, some t, tr =>
      if t = m then (tr, some t)
      else
        let rk := getRangeKeyAndTail s t
        let present :=
          match rk.1 with
          | none => s.dotted.any (fun r => r.tip = t && r.merged = m)
          | some key => s.dotted.any (fun r =>
              s.mlp.any (fun mm => mm.range = key && mm.revision = r.tip)
              && r.merged = m)
        if present then (tr ++ [QOp.readRows], some t)
        else ftcLoop s m fuel rk.2 (tr ++ [QOp.readRows])

/-- Querier._get_merge_sorted_range, collecting (merged, depth, revno,
end_of_merge) rows tip-segment by tip-segment. -/
def gmsLoop (s : Store) : Nat → Option Nat → List QOp →
    List (Nat × Nat × List Nat × Bool) → (List QOp × List (Nat × Nat × List Nat × Bool))
  | 0, _, tr, acc => (tr, acc)
  | _ + 1, none, tr, acc => (tr, acc)
  | fuel + 1, some t, tr, acc =>
      let rk := getRangeKeyAndTail s t
      let rows := sortByDist (s.dotted.filter (fun r => r.tip = t))
      gmsLoop s fuel rk.2 (tr ++ [QOp.readRows])
        (acc ++ rows.map (fun r => (r.merged, r.mergeDepth, r.revno, r.endOfMerge)))

/-- Querier.iter_merge_sorted_revisions with default start and stop:
ensure_branch_tip first, then seek the containing tip and stream the
merge-sorted rows. -/
def iterMergeSorted (imp : Store → Store) (s : Store) (branchTip : Nat)
    (fuel : Nat) : List QOp × List (Nat × Nat × List Nat × Bool) :=
  let s2 := ensureBranchTip imp s branchTip
  match look s2.revGdfo branchTip with
  | none => ([QOp.ensureTip], [])
  | some t =>
      let f := ftcLoop s2 t fuel (some t) []
      let r := gmsLoop s2 fuel f.2 f.1 []
      (QOp.ensureTip :: r.1, r.2)

/-- One walk_ancestry step: all merged revisions of the current tip or
of all tips of the current range. -/
def walkAncestryLoop (s : Store) : Nat → Option Nat → List Nat → List QOp →
    (List QOp × List Nat)
  | 0, _, acc, tr => (tr, acc)
  | _ + 1, none, acc, tr => (tr, acc)
  | fuel + 1, some d, acc, tr =>
      let rk := getRangeKeyAndTail s d
      let merged : List Nat :=
        match rk.1 with
        | none => s.dotted.filterMap (fun r : DottedRow =>
            if r.tip = d then some r.merged else none)
        | some key => s.dotted.filterMap (fun r : DottedRow =>
            if s.mlp.any (fun m => m.range = key && m.revision = r.tip)
            then some r.merged else none)
      walkAncestryLoop s fuel rk.2 (merged.foldl setAdd acc) (tr ++ [QOp.readRows])

/-- Querier.walk_ancestry: resolve the tip db id (a row read) and
collect all ancestors via ranges.  No ensure_branch_tip call is
made. -/
def walkAncestry (s : Store) (branchTip : Nat) (fuel : Nat) : List QOp × List Nat :=
  match look s.revGdfo branchTip with
  | none => ([QOp.readRows], [])
  | some d => walkAncestryLoop s fuel (some d) [] [QOp.readRows]

/-! ## Concrete fixtures used by the theorems -/

/-- A linear two-revision repository: revision 2 (tip) has left-hand
parent 1, revision 1 is the root. -/
def repoLin : Repo := fun r =>
  if r = 2 then some [1] else if r = 1 then some [] else none

/-- The same ancestry as a parent-list graph for the reference
sorter. -/
def gLin : Nat → List Nat := fun r => if r = 2 then [1] else []

/-- The ghost ancestry: tip 4 with left-hand parent 3; revision 3 has
parents (9, 5) where 9 is a ghost and 5 a parent-less root. -/
def repoGhost : Repo := fun r =>
  if r = 4 then some [3]
  else if r = 3 then some [9, 5]
  else if r = 5 then some []
  else none

/-- A store holding one imported revision 1 = revno (1,). -/
def oneRevStore : Store :=
  { emptyStore with
    revGdfo := [(1, 1)],
    parents := [(1, [])],
    dotted := [{ tip := 1, merged := 1, revno := [1], endOfMerge := true,
                 mergeDepth := 0, dist := 0 }],
    ranges := [{ pkey := 1, head := 1, tail := none, count := 1 }],
    mlp := [{ range := 1, revision := 1, dist := 0 }],
    nextRangeKey := 2 }

/-- A store that knows revision 2 but has not imported it as a tip. -/
def unimportedTipStore : Store :=
  { emptyStore with revGdfo := [(2, 1)], parents := [(2, [])] }

/-- The externally merge-sorted list (2 = revno 2, 1 = revno 1) handed
to the non-incremental import of tip 2 over oneRevStore. -/
def msLin : List MSNode :=
  [{ key := 2, mergeDepth := 0, revno := [2], endOfMerge := false,
     leftParent := some 1, leftPendingParent := none, pendingRev := [],
     isFirst := true },
   { key := 1, mergeDepth := 0, revno := [1], endOfMerge := true,
     leftParent := none, leftPendingParent := none, pendingRev := [],
     isFirst := true }]

/-- 250 linear revisions 1..250, the parent of k+1 being k: the store
state just before _build_one_mainline during the import of tip 250. -/
def lin250Store : Store :=
  { emptyStore with
    parents := (List.range 250).map
      (fun k => (250 - k, if k = 249 then [] else [249 - k])),
    revGdfo := (List.range 250).map (fun k => (250 - k, 250 - k)) }

/-! ## C10 -/

/-- C10: for every revision_id argument, Querier.get_children fails with
an unbound-name error before its SQL query executes (the query is
parameterized with the undefined name revid rather than the revision_id
parameter), so it never returns a list of children. -/
theorem C10_get_children_name_error (s : Store) (revision_id : Nat) :
    getChildren s revision_id = Except.error PyErr.nameError := rfl

/-! ## C7 -/

/-- C7: walk_mainline is specified to return the same sequence as
stepping one left-hand parent at a time, but its helper
_get_mainline_range_starting_at reads the unbound name tip_db_id
(instead of its parameter head_db_id), so on the failing input — any
branch whose tip exists in the revision table, here the one-revision imported
store — walk_mainline raises NameError where the left-hand
parent walk returns the mainline (1,). -/
theorem C7_walk_mainline_name_error :
    (walkMainline oneRevStore 1 16).2 = Except.error PyErr.nameError ∧
    lhWalk oneRevStore 16 (some 1) = [1] := by
  constructor
  · rfl
  · rfl

/-! ## C9 -/

/-- C9 counterexample: on a store whose branch tip 2 is known but not an imported
tip, walk_ancestry performs row reads without ever calling
ensure_branch_tip, refuting the claim that every public read method
ensures the tip first. -/
theorem C9_counterexample :
    isImportedDbId unimportedTipStore 2 = false ∧
    QOp.ensureTip ∉ (walkAncestry unimportedTipStore 2 8).1 ∧
    (walkAncestry unimportedTipStore 2 8).1 ≠ [] := by
  refine ⟨rfl, ?_, ?_⟩
  · decide
  · decide

/-! ## C1 -/

/-- C1 counterexample: import tip 2 of the linear ancestry 1 ← 2 into an
empty store.  The reference merge sort of the complete ancestry of 2
emits a row for revision 1, but no dotted_revno row with tip = 2 mentions
revision 1: the rows stored under tip = 2 are only the tip segment, so
the two sets differ. -/
theorem C1_counterexample :
    ((fmRows gLin 2 64).any (fun r => r.1 == 1)) = true ∧
    ((storedRows (doImportInc repoLin emptyStore 2 64).1 2).any
      (fun r => r.1 == 1)) = false := by
  constructor
  · decide
  · decide

/-! ## C5 -/

/-- C5 counterexample: importing tip 4 of the ghost ancestry (mainline
4 ← 3, revision 3 with a ghost left-hand parent and merged root 5)
stores the row (tip = 3, merged = 3, revno = 0.1.1, merge_depth = 0):
a mainline row of an imported tip whose revno has three components. -/
theorem C5_counterexample :
    isImportedDbId (doImportInc repoGhost emptyStore 4 64).1 3 = true ∧
    ({ tip := 3, merged := 3, revno := [0, 1, 1], endOfMerge := false,
       mergeDepth := 0, dist := 0 } : DottedRow)
        ∈ (doImportInc repoGhost emptyStore 4 64).1.dotted ∧
    ([0, 1, 1] : List Nat).length ≠ 1 := by
  refine ⟨rfl, ?_, ?_⟩
  · decide
  · decide

/-! ## C8 -/

/-- C8 counterexample: a non-incremental import of tip 2 over a store
where revision 1 is already imported hits the uniqueness violation on
the (1, 1) row; the call reports no error, but the transaction is
committed rather than rolled back: the store keeps the tip-2 rows and
mainline ranges written by this import, so it is not left unchanged. -/
theorem C8_counterexample :
    (doImportFull oneRevStore [(2, [1])] msLin 2 64).2 = true ∧
    (doImportFull oneRevStore [(2, [1])] msLin 2 64).1 ≠ oneRevStore ∧
    ({ tip := 2, merged := 2, revno := [2], endOfMerge := false,
       mergeDepth := 0, dist := 0 } : DottedRow)
        ∈ (doImportFull oneRevStore [(2, [1])] msLin 2 64).1.dotted := by
  refine ⟨rfl, ?_, ?_⟩
  · decide
  · decide

/-! ## C2 -/

/-- C2: when the incremental sorter pops a node whose left-hand parent
is known and numbered with revno pr (which by construction has one or
three components): a first child (per _is_first_child, which consults
both this walk and the loaded historical dotted_revno) receives pr with
its last component incremented; otherwise the revno is (base,
branch_count + 1, 1) where base is the first component of pr and
branch_count is the sub-branch counter recorded for base after the
mainline has been stepped to the latest branch. -/
theorem C2_first_child_numbering (st : IncState) (node : MSNode) (lp : Nat)
    (pr : List Nat) (e : Bool) (dep stl : Nat)
    (hlp : node.leftParent = some lp)
    (hpr : look st.importedDotted lp = some (pr, e, dep))
    (hlen : pr.length = 1 ∨ pr.length = 3) :
    (popRevno st node stl).1 =
      if node.isFirst then incLast pr
      else
        (pr.headD 0) ::
          [lookD (if pr.length > 1 then stepToLatestBranch st (pr.headD 0) stl
                  else st).revnoToBranchCount (pr.headD 0) 0 + 1, 1] := by
  rcases hlen with h1 | h3
  · rcases List.length_eq_one.mp h1 with ⟨a, rfl⟩
    by_cases hf : node.isFirst
    · simp [popRevno, hlp, hpr, hf, incLast]
    · simp [popRevno, hlp, hpr, hf, lookD]
  · match pr, h3 with
    | [a, b, c], _ =>
      by_cases hf : node.isFirst
      · simp [popRevno, hlp, hpr, hf, incLast]
      · simp [popRevno, hlp, hpr, hf, lookD]

/-- A fixture for the pop-level witnesses: revision 1 is numbered (5,)
in the loaded history and node 2 has it as left-hand parent. -/
def c2State : IncState :=
  { initIncState emptyStore with importedDotted := [(1, ([5], true, 0))] }

def c2Node : MSNode :=
  { key := 2, mergeDepth := 0, revno := [], endOfMerge := false,
    leftParent := some 1, leftPendingParent := none, pendingRev := [],
    isFirst := true }

theorem C2_witness : (popRevno c2State c2Node 4).1 = incLast [5] := by
  have h := C2_first_child_numbering c2State c2Node 1 [5] true 0 4 rfl rfl
    (Or.inl rfl)
  simpa [c2Node] using h

/-! ## C3 -/

/-- C3: a revision whose left-hand parent is a ghost is pushed with no
left parent and is_first = True, exactly like a revision with no
parents; a node popped with no left parent receives (1,) when no
new-root branch counter exists yet (the very first mainline revision)
and (0, k + 1, 1) where k is the recorded counter otherwise. -/
theorem C3_ghost_new_root (st : IncState) (dbId depth g stl : Nat)
    (rest : List Nat) (node : MSNode)
    (hps : getParentsS st.store dbId = g :: rest)
    (hg : memb g st.store.ghosts = true)
    (hint : memb dbId st.interesting = true)
    (hroot : node.leftParent = none) :
    (∃ n : MSNode, (pushNode st dbId depth).dfs = n :: st.dfs ∧
       n.leftParent = none ∧ n.isFirst = true) ∧
    ((popRevno st node stl).1 =
      match look (stepToLatestBranch st 0 stl).revnoToBranchCount 0 with
      | none => [1]
      | some k => [0, k + 1, 1]) := by
  constructor
  · have h : (pushNode st dbId depth).dfs =
        ({ key := dbId, mergeDepth := depth, revno := [], endOfMerge := false,
           leftParent := none, leftPendingParent := none,
           pendingRev := (rest.filter (fun p => ¬ memb p st.store.ghosts)).reverse,
           isFirst := true } : MSNode) :: st.dfs := by
      simp [pushNode, hps, hint, hg]
    exact ⟨_, h, rfl, rfl⟩
  · cases hk : look (stepToLatestBranch st 0 stl).revnoToBranchCount 0 with
    | none => simp [popRevno, hroot, hk]
    | some k => simp [popRevno, hroot, hk]

/-- A fixture matching the ghost scenario: revision 3 has parents
(9, 5) with 9 a ghost. -/
def c3State : IncState :=
  { initIncState
      { emptyStore with
        parents := [(3, [9, 5]), (4, [3]), (5, []), (9, [])],
        ghosts := [9] } with
    interesting := [3, 4, 5, 9] }

def c3Node : MSNode :=
  { key := 5, mergeDepth := 1, revno := [], endOfMerge := false,
    leftParent := none, leftPendingParent := none, pendingRev := [],
    isFirst := true }

theorem C3_witness :
    (∃ n : MSNode, (pushNode c3State 3 0).dfs = n :: c3State.dfs ∧
       n.leftParent = none ∧ n.isFirst = true) ∧
    ((popRevno c3State c3Node 4).1 =
      match look (stepToLatestBranch c3State 0 4).revnoToBranchCount 0 with
      | none => [1]
      | some k => [0, k + 1, 1]) :=
  C3_ghost_new_root c3State 3 0 9 4 [5] c3Node rfl rfl rfl rfl

/-! ## C5 (amended theorem) -/

/-- C5 amended: a node popped at any depth whose left-hand parent is
present with a single-component revno (r,) and which is its first child
— the situation of every mainline revision in an ancestry where no
mainline left-hand parent is a ghost — receives the single-component
revno (r + 1,); the counterexample shows the ghost case instead produces
a three-component mainline revno. -/
theorem C5_amended_mainline_revno (st : IncState) (node : MSNode)
    (lp r : Nat) (e : Bool) (dep stl : Nat)
    (hlp : node.leftParent = some lp)
    (hpr : look st.importedDotted lp = some ([r], e, dep))
    (hfirst : node.isFirst = true) :
    (popRevno st node stl).1 = [r + 1] := by
  simp [popRevno, hlp, hpr, hfirst]

theorem C5_witness : (popRevno c2State c2Node 4).1 = [6] :=
  C5_amended_mainline_revno c2State c2Node 1 5 true 0 4 rfl rfl rfl

/-! ## C9 (amended theorem) -/

theorem wmLoop_no_ensure (s : Store) (fuel : Nat) (cur : Option Nat)
    (acc : List Nat) (tr : List QOp) (h : QOp.ensureTip ∉ tr) :
    QOp.ensureTip ∉ (walkMainlineLoop s fuel cur acc tr).1 := by
  induction fuel generalizing cur acc tr with
  | zero => simpa [walkMainlineLoop] using h
  | succ n ih =>
    cases cur with
    | none => simpa [walkMainlineLoop] using h
    | some d => simpa [walkMainlineLoop, getMainlineRangeStartingAt, lookupName]
        using h

theorem waLoop_no_ensure (s : Store) (fuel : Nat) (cur : Option Nat)
    (acc : List Nat) (tr : List QOp) (h : QOp.ensureTip ∉ tr) :
    QOp.ensureTip ∉ (walkAncestryLoop s fuel cur acc tr).1 := by
  induction fuel generalizing cur acc tr with
  | zero => simpa [walkAncestryLoop] using h
  | succ n ih =>
    cases cur with
    | none => simpa [walkAncestryLoop] using h
    | some d =>
      simp only [walkAncestryLoop]
      apply ih
      simp [h]

/-- C9 amended: get_dotted_revnos, get_revision_ids,
get_mainline_where_merged and iter_merge_sorted_revisions call
ensure_branch_tip before any row is read (their operation trace starts
with it), but walk_mainline and walk_ancestry never call it and read the
store as found. -/
theorem C9_amended_ensure_tip (imp : Store → Store) (s : Store)
    (tip fuel : Nat) (ids : List Nat) (revnos : List (List Nat)) :
    (getDottedRevnos imp s tip ids fuel).1.head? = some QOp.ensureTip ∧
    (getRevisionIds imp s tip revnos fuel).1.head? = some QOp.ensureTip ∧
    (getMainlineWhereMerged imp s tip ids fuel).1.head? = some QOp.ensureTip ∧
    (iterMergeSorted imp s tip fuel).1.head? = some QOp.ensureTip ∧
    QOp.ensureTip ∉ (walkMainline s tip fuel).1 ∧
    QOp.ensureTip ∉ (walkAncestry s tip fuel).1 := by
  refine ⟨?_, ?_, ?_, ?_, ?_, ?_⟩
  · cases h : look (ensureBranchTip imp s tip).revGdfo tip <;>
      simp [getDottedRevnos, h]
  · cases h : look (ensureBranchTip imp s tip).revGdfo tip <;>
      simp [getRevisionIds, h]
  · cases h : look (ensureBranchTip imp s tip).revGdfo tip <;>
      simp [getMainlineWhereMerged, h]
  · cases h : look (ensureBranchTip imp s tip).revGdfo tip <;>
      simp [iterMergeSorted, h]
  · cases h : look s.revGdfo tip with
    | none => simp [walkMainline, h]
    | some d =>
        simp only [walkMainline, h]
        exact wmLoop_no_ensure s fuel (some tip) [] [QOp.readRows] (by simp)
  · cases h : look s.revGdfo tip with
    | none => simp [walkAncestry, h]
    | some d =>
        simp only [walkAncestry, h]
        exact waLoop_no_ensure s fuel (some d) [] [QOp.readRows] (by simp)

/-! ## C6 -/

theorem insertRange_count_le (s : Store) (ids : List Nat) (tail : Option Nat)
    (hids : ids.length ≤ mainlineRangeLen)
    (hs : ∀ r ∈ s.ranges, r.count ≤ mainlineRangeLen) :
    ∀ r ∈ (insertRange s ids tail).ranges, r.count ≤ mainlineRangeLen := by
  cases ids with
  | nil => exact hs
  | cons h t =>
      intro r hr
      simp only [insertRange, List.mem_append] at hr
      rcases hr with hr | hr
      · exact hs r hr
      · simp only [List.mem_singleton] at hr
        subst hr
        simpa using hids

theorem bomChunk_count_le (fuel : Nat) :
    ∀ (s : Store) (ids : List Nat) (cur : Option Nat),
    (∀ r ∈ s.ranges, r.count ≤ mainlineRangeLen) →
    ∀ r ∈ (bomChunk s fuel ids cur).ranges, r.count ≤ mainlineRangeLen := by
  induction fuel with
  | zero => intro s ids cur hs; exact hs
  | succ n ih =>
      intro s ids cur hs
      by_cases h : ids = []
      · simpa [bomChunk, h] using hs
      · intro r hr
        simp only [bomChunk] at hr
        rw [if_neg h] at hr
        refine ih _ _ _ ?_ r hr
        apply insertRange_count_le
        · rw [List.length_drop]
          omega
        · exact hs

/-- C6: every row inserted into mainline_parent_range has count at most
100 (given the existing rows do), and running _build_one_mainline for
the tip of a linear 250-revision history produces exactly the three
ranges 100, 100, 50, inserted oldest chunk first so only the newest
range is sub-maximal. -/
theorem C6_range_chunking :
    (∀ (s : Store) (head fuel : Nat),
       (∀ r ∈ s.ranges, r.count ≤ mainlineRangeLen) →
       ∀ r ∈ (buildOneMainline s head fuel).ranges, r.count ≤ mainlineRangeLen) ∧
    (buildOneMainline lin250Store 250 400).ranges.map RangeRow.count =
      [100, 100, 50] := by
  constructor
  · intro s head fuel hs
    exact bomChunk_count_le fuel s _ _ hs
  · decide

theorem C6_witness :
    ({ pkey := 1, head := 100, tail := none, count := 100 } : RangeRow).count
      ≤ mainlineRangeLen := by
  apply C6_range_chunking.1 lin250Store 250 400
  · intro r hr
    simp [lin250Store, emptyStore] at hr
  · decide

/-! ## C8 (amended theorem) -/

theorem createDotted_mono (s : Store) (rows : List DottedRow) (s2 : Store)
    (h : createDottedRevnos s rows = some s2) (r : DottedRow)
    (hr : r ∈ s.dotted) : r ∈ s2.dotted := by
  unfold createDottedRevnos at h
  by_cases hc : rows.any
      (fun r => s.dotted.any (fun r0 => r0.tip = r.tip && r0.merged = r.merged)) = true
  · rw [if_pos hc] at h
    exact Option.noConfusion h
  · rw [if_neg hc] at h
    cases h
    exact List.mem_append_left _ hr

theorem insertNodes_mono (s : Store) (tip : Nat) (nodes : List MSNode)
    (r : DottedRow) (hr : r ∈ s.dotted) :
    r ∈ (insertNodes s tip nodes).2.dotted := by
  unfold insertNodes
  cases h : createDottedRevnos s (mkRows tip nodes) with
  | none => exact hr
  | some s2 => exact createDotted_mono s _ s2 h r hr

theorem importLoop_mono (r : DottedRow) :
    ∀ (ms : List MSNode) (s : Store) (t : Nat) (nn : List MSNode),
    r ∈ s.dotted → r ∈ (importLoop s t nn ms).1.dotted := by
  intro ms
  induction ms with
  | nil =>
      intro s t nn hr
      by_cases h : nn = []
      · simpa [importLoop, h] using hr
      · have hmono := insertNodes_mono s t nn r hr
        simp only [importLoop]
        rw [if_neg h]
        cases hi : insertNodes s t nn with
        | mk ok s2 =>
            rw [hi] at hmono
            exact hmono
  | cons n rest ih =>
      intro s t nn hr
      simp only [importLoop]
      by_cases h0 : n.mergeDepth = 0
      · rw [if_pos h0]
        have hmono := insertNodes_mono s t nn r hr
        cases hi : insertNodes s t nn with
        | mk ok s2 =>
            rw [hi] at hmono
            cases ok
            · exact hmono
            · exact ih _ _ _ hmono
      · rw [if_neg h0]
        exact ih _ _ _ hr

theorem insertRange_dotted (s : Store) (ids : List Nat) (tail : Option Nat) :
    (insertRange s ids tail).dotted = s.dotted := by
  cases ids <;> rfl

theorem bomChunk_dotted (fuel : Nat) :
    ∀ (s : Store) (ids : List Nat) (cur : Option Nat),
    (bomChunk s fuel ids cur).dotted = s.dotted := by
  induction fuel with
  | zero => intro s ids cur; rfl
  | succ n ih =>
      intro s ids cur
      by_cases h : ids = []
      · simp [bomChunk, h]
      · simp only [bomChunk]
        rw [if_neg h, ih, insertRange_dotted]

theorem buildOneMainline_dotted (s : Store) (head fuel : Nat) :
    (buildOneMainline s head fuel).dotted = s.dotted :=
  bomChunk_dotted fuel s _ _

theorem insertParentMap_dotted (l : List (Nat × List Nat)) :
    ∀ s : Store, (insertParentMap s l).dotted = s.dotted := by
  induction l with
  | nil => intro s; rfl
  | cons cp rest ih =>
      intro s
      by_cases h : (look s.parents cp.1).isSome
      · simp [insertParentMap, h, ih]
      · simp [insertParentMap, h, ih]

theorem importTip_mono (s : Store) (ms : List MSNode) (tip fuel : Nat)
    (r : DottedRow) (hr : r ∈ s.dotted) :
    r ∈ (importTip s ms tip fuel).1.dotted := by
  cases ms with
  | nil => simpa [importTip, buildOneMainline_dotted] using hr
  | cons n rest =>
      simp only [importTip, buildOneMainline_dotted]
      exact importLoop_mono r rest s n.key [n] hr

/-- C8 amended: when the insert phase sees a uniqueness violation the
Importer stops inserting further dotted_revno segments and surfaces no
error, but the transaction is committed, not rolled back: every
dotted_revno row present before do_import (and every row inserted before
the violation) is still present in the committed store, which is
therefore not left unchanged by the import. -/
theorem C8_amended_commit (s : Store) (pm : List (Nat × List Nat))
    (ms : List MSNode) (tip fuel : Nat) (r : DottedRow)
    (hr : r ∈ s.dotted) :
    r ∈ (doImportFull s pm ms tip fuel).1.dotted := by
  unfold doImportFull
  apply importTip_mono
  rw [insertParentMap_dotted]
  exact hr

theorem C8_witness :
    ({ tip := 1, merged := 1, revno := [1], endOfMerge := true,
       mergeDepth := 0, dist := 0 } : DottedRow)
      ∈ (doImportFull oneRevStore [(2, [1])] msLin 2 64).1.dotted :=
  C8_amended_commit oneRevStore [(2, [1])] msLin 2 64 _ (by simp [oneRevStore])

/-! ## C1 (amended theorem) -/

/-- The comparable content of a merge-sorted node at its enumerate
position. -/
def nodeTuple (dn : Nat × MSNode) : Nat × List Nat × Bool × Nat × Nat :=
  (dn.2.key, dn.2.revno, dn.2.endOfMerge, dn.2.mergeDepth, dn.1)

theorem filterMap_all_some {α β : Type} (f : α → Option β) (g : α → β) :
    ∀ l : List α, (∀ a ∈ l, f a = some (g a)) → l.filterMap f = l.map g := by
  intro l
  induction l with
  | nil => intro _; rfl
  | cons a t ih =>
      intro h
      rw [List.filterMap_cons, List.map_cons, h a (List.mem_cons_self a t),
        ih (fun b hb => h b (List.mem_cons_of_mem a hb))]

theorem filterMap_all_none {α β : Type} (f : α → Option β) :
    ∀ l : List α, (∀ a ∈ l, f a = none) → l.filterMap f = [] := by
  intro l
  induction l with
  | nil => intro _; rfl
  | cons a t ih =>
      intro h
      rw [List.filterMap_cons, h a (List.mem_cons_self a t),
        ih (fun b hb => h b (List.mem_cons_of_mem a hb))]

theorem rowsFor_append (d1 d2 : List DottedRow) (t : Nat) :
    rowsFor (d1 ++ d2) t = rowsFor d1 t ++ rowsFor d2 t := by
  unfold rowsFor
  exact List.filterMap_append d1 d2 _

theorem rowsFor_mkRows_self (t : Nat) (nn : List MSNode) :
    rowsFor (mkRows t nn) t = nn.enum.map nodeTuple := by
  unfold rowsFor mkRows
  rw [List.filterMap_map]
  apply filterMap_all_some
  intro a _
  simp [rowTuple, nodeTuple]

theorem rowsFor_mkRows_other (t t' : Nat) (nn : List MSNode) (h : t' ≠ t) :
    rowsFor (mkRows t' nn) t = [] := by
  unfold rowsFor mkRows
  rw [List.filterMap_map]
  apply filterMap_all_none
  intro a _
  simp [h]

theorem rowsFor_nil_of_fresh (d : List DottedRow) (t : Nat)
    (h : ∀ r ∈ d, r.tip ≠ t) : rowsFor d t = [] := by
  apply filterMap_all_none
  intro r hr
  simp [h r hr]

theorem createDotted_fresh (s : Store) (t : Nat) (nn : List MSNode)
    (hfresh : ∀ r ∈ s.dotted, r.tip ≠ t) :
    createDottedRevnos s (mkRows t nn) =
      some { s with dotted := s.dotted ++ mkRows t nn } := by
  unfold createDottedRevnos
  rw [if_neg]
  intro hany
  rcases List.any_eq_true.mp hany with ⟨r, hr, hinner⟩
  have hrt : r.tip = t := by
    rcases List.mem_map.mp hr with ⟨din, _, rfl⟩
    rfl
  rcases List.any_eq_true.mp hinner with ⟨r0, hr0, heq⟩
  have h1 : r0.tip = r.tip := by
    have := (Bool.and_eq_true _ _).mp heq
    exact of_decide_eq_true this.1
  exact hfresh r0 hr0 (h1.trans hrt)

theorem createDotted_shape (s : Store) (rows : List DottedRow) (s2 : Store)
    (h : createDottedRevnos s rows = some s2) :
    s2 = { s with dotted := s.dotted ++ rows } := by
  unfold createDottedRevnos at h
  by_cases hc : rows.any
      (fun r => s.dotted.any (fun r0 => r0.tip = r.tip && r0.merged = r.merged)) = true
  · rw [if_pos hc] at h
    exact Option.noConfusion h
  · rw [if_neg hc] at h
    exact (Option.some.injEq _ _).mp h.symm |>.symm ▸ rfl

theorem insertNodes_rowsFor_other (s : Store) (t t' : Nat) (nn : List MSNode)
    (h : t' ≠ t) :
    rowsFor (insertNodes s t' nn).2.dotted t = rowsFor s.dotted t := by
  unfold insertNodes
  cases hi : createDottedRevnos s (mkRows t' nn) with
  | none => rfl
  | some s2 =>
      have := createDotted_shape s _ s2 hi
      subst this
      simp only [rowsFor_append, rowsFor_mkRows_other t t' nn h, List.append_nil]

/-- Inserting segments under tips different from t leaves the rows with
tip = t unchanged. -/
theorem importLoop_rowsFor_other (t : Nat) :
    ∀ (ms : List MSNode) (s : Store) (t' : Nat) (nn : List MSNode),
    t' ≠ t → (∀ n ∈ ms, n.mergeDepth = 0 → n.key ≠ t) →
    rowsFor (importLoop s t' nn ms).1.dotted t = rowsFor s.dotted t := by
  intro ms
  induction ms with
  | nil =>
      intro s t' nn ht hk
      by_cases h : nn = []
      · simp [importLoop, h]
      · simp only [importLoop]
        rw [if_neg h]
        have hother := insertNodes_rowsFor_other s t t' nn ht
        cases hi : insertNodes s t' nn with
        | mk ok s2 =>
            rw [hi] at hother
            exact hother
  | cons n rest ih =>
      intro s t' nn ht hk
      simp only [importLoop]
      by_cases h0 : n.mergeDepth = 0
      · rw [if_pos h0]
        have hother := insertNodes_rowsFor_other s t t' nn ht
        cases hi : insertNodes s t' nn with
        | mk ok s2 =>
            rw [hi] at hother
            cases ok
            · exact hother
            · rw [ih s2 n.key [n] (hk n (List.mem_cons_self n rest) h0)
                (fun m hm hd => hk m (List.mem_cons_of_mem n hm) hd)]
              exact hother
      · rw [if_neg h0]
        exact ih s t' (nn ++ [n]) ht
          (fun m hm hd => hk m (List.mem_cons_of_mem n hm) hd)

/-- The rows the import loop stores under tip t are exactly the
accumulated segment of t: the pending nodes nn followed by the leading
non-mainline nodes of the remaining merge-sorted list. -/
theorem importLoop_rowsFor_self (t : Nat) :
    ∀ (ms : List MSNode) (s : Store) (nn : List MSNode),
    (∀ r ∈ s.dotted, r.tip ≠ t) →
    (∀ n ∈ ms, n.mergeDepth = 0 → n.key ≠ t) →
    rowsFor (importLoop s t nn ms).1.dotted t =
      (nn ++ ms.takeWhile (fun n => n.mergeDepth != 0)).enum.map nodeTuple := by
  intro ms
  induction ms with
  | nil =>
      intro s nn hfresh hk
      by_cases h : nn = []
      · simp [importLoop, h, rowsFor_nil_of_fresh s.dotted t hfresh]
      · simp only [importLoop]
        rw [if_neg h]
        have hsome := createDotted_fresh s t nn hfresh
        have : insertNodes s t nn =
            (true, { s with dotted := s.dotted ++ mkRows t nn }) := by
          unfold insertNodes
          rw [hsome]
        rw [this]
        simp only [List.takeWhile_nil, List.append_nil, rowsFor_append,
          rowsFor_nil_of_fresh s.dotted t hfresh, rowsFor_mkRows_self,
          List.nil_append]
  | cons n rest ih =>
      intro s nn hfresh hk
      simp only [importLoop]
      by_cases h0 : n.mergeDepth = 0
      · rw [if_pos h0]
        have hsome := createDotted_fresh s t nn hfresh
        have hins : insertNodes s t nn =
            (true, { s with dotted := s.dotted ++ mkRows t nn }) := by
          unfold insertNodes
          rw [hsome]
        rw [hins]
        have htw : (n :: rest).takeWhile (fun n => n.mergeDepth != 0) = [] := by
          simp [List.takeWhile_cons, h0]
        rw [htw, List.append_nil]
        rw [importLoop_rowsFor_other t rest _ n.key [n]
          (hk n (List.mem_cons_self n rest) h0)
          (fun m hm hd => hk m (List.mem_cons_of_mem n hm) hd)]
        simp only [rowsFor_append, rowsFor_nil_of_fresh s.dotted t hfresh,
          rowsFor_mkRows_self, List.nil_append]
      · rw [if_neg h0]
        rw [ih s (nn ++ [n]) hfresh
          (fun m hm hd => hk m (List.mem_cons_of_mem n hm) hd)]
        have htw : (n :: rest).takeWhile (fun n => n.mergeDepth != 0) =
            n :: rest.takeWhile (fun n => n.mergeDepth != 0) := by
          simp [List.takeWhile_cons, h0]
        rw [htw, List.append_assoc, List.singleton_append]

/-- C1 amended: the dotted_revno rows stored with tip = t are exactly
the merge group of t itself — t followed by the revisions merged
directly into t, i.e. the nodes up to (excluding) the next mainline
revision — with dist the position inside that group.  The output of the
reference merge sort for the complete ancestry of t is instead spread
over the rows of all of t's mainline ancestors, as the counterexample
shows. -/
theorem C1_amended_segment_rows (s : Store) (n0 : MSNode) (rest : List MSNode)
    (tipRev fuel : Nat)
    (hfresh : ∀ r ∈ s.dotted, r.tip ≠ n0.key)
    (hkeys : ∀ n ∈ rest, n.mergeDepth = 0 → n.key ≠ n0.key) :
    storedRows (importTip s (n0 :: rest) tipRev fuel).1 n0.key =
      (n0 :: rest.takeWhile (fun n => n.mergeDepth != 0)).enum.map nodeTuple := by
  unfold importTip storedRows
  rw [buildOneMainline_dotted]
  exact importLoop_rowsFor_self n0.key rest s [n0] hfresh hkeys

/-- The two merge-sorted nodes of the linear fixture, named. -/
def msLinB : MSNode :=
  { key := 2, mergeDepth := 0, revno := [2], endOfMerge := false,
    leftParent := some 1, leftPendingParent := none, pendingRev := [],
    isFirst := true }

def msLinA : MSNode :=
  { key := 1, mergeDepth := 0, revno := [1], endOfMerge := true,
    leftParent := none, leftPendingParent := none, pendingRev := [],
    isFirst := true }

theorem C1_witness :
    storedRows (importTip emptyStore (msLinB :: [msLinA]) 2 8).1 2 =
      [(2, [2], false, 0, 0)] := by
  have h := C1_amended_segment_rows emptyStore msLinB [msLinA] 2 8
    (by intro r hr; simp [emptyStore] at hr)
    (by
      intro n hn hd
      simp only [List.mem_singleton] at hn
      subst hn
      decide)
  simpa [msLinB, msLinA, nodeTuple] using h

/-! ## C4: invariants of the ancestry walk -/

/-- Submap relation between association lists: every defined lookup is
preserved. -/
def StoreSub {β : Type} (a b : List (Nat × β)) : Prop :=
  ∀ c v, look a c = some v → look b c = some v

theorem storeSub_refl {β : Type} (a : List (Nat × β)) : StoreSub a a :=
  fun _ _ h => h

theorem storeSub_trans {β : Type} {a b c : List (Nat × β)}
    (h1 : StoreSub a b) (h2 : StoreSub b c) : StoreSub a c :=
  fun k v h => h2 k v (h1 k v h)

theorem storeSub_insert {β : Type} (m : List (Nat × β)) (a : Nat) (b : β)
    (hfresh : look m a = none) : StoreSub m ((a, b) :: m) :=
  fun k v h => look_mono_insert m a k b v hfresh h

/-- The invariants of _find_known_ancestors, tying the parent_map, the
known gdfo dictionary and the revision rows written so far together:
zero-parent entries (ghosts and roots) are stored with gdfo 1, known
mirrors the store, revisions with recorded parents are not in the store
yet, every child queued in the children map has a nonempty recorded
parent list, and every recorded parent list is what the repository
reports. -/
structure FKInv (repo : Repo) (st : FKState) : Prop where
  pmRoot : ∀ c, look st.pm c = some [] → look st.store.revGdfo c = some 1
  knownStore : ∀ c g, look st.known c = some g → look st.store.revGdfo c = some g
  pmChild : ∀ c ps, look st.pm c = some ps → ps ≠ [] →
    look st.store.revGdfo c = none
  childPm : ∀ p cs, look st.children p = some cs → ∀ c ∈ cs,
    ∃ a as, look st.pm c = some (a :: as)
  pmSpec : ∀ c ps, look st.pm c = some ps → ps = specPm repo c

theorem fkAddParents_pm (rev : Nat) :
    ∀ (ps : List Nat) (st : FKState), (fkAddParents rev ps st).pm = st.pm := by
  intro ps
  induction ps with
  | nil => intro st; rfl
  | cons p rest ih =>
      intro st
      simp only [fkAddParents]
      rw [ih]
      split
      · rfl
      · split <;> rfl

theorem fkAddParents_known (rev : Nat) :
    ∀ (ps : List Nat) (st : FKState), (fkAddParents rev ps st).known = st.known := by
  intro ps
  induction ps with
  | nil => intro st; rfl
  | cons p rest ih =>
      intro st
      simp only [fkAddParents]
      rw [ih]
      split
      · rfl
      · split <;> rfl

theorem fkAddParents_store (rev : Nat) :
    ∀ (ps : List Nat) (st : FKState), (fkAddParents rev ps st).store = st.store := by
  intro ps
  induction ps with
  | nil => intro st; rfl
  | cons p rest ih =>
      intro st
      simp only [fkAddParents]
      rw [ih]
      split
      · rfl
      · split <;> rfl

/-- One children append keeps the invariant, provided the appended child
rev has a nonempty recorded parent list. -/
theorem childrenAdd_inv (repo : Repo) (rev p : Nat) (st : FKState)
    (h : FKInv repo st) (hrev : ∃ a as, look st.pm rev = some (a :: as)) :
    FKInv repo { st with children := childrenAdd st.children p rev } := by
  constructor
  · exact h.pmRoot
  · exact h.knownStore
  · exact h.pmChild
  · intro q cs hq c hcmem
    by_cases hqp : p = q
    · subst hqp
      simp only [childrenAdd, look_cons_self] at hq
      cases hq
      rcases List.mem_append.mp hcmem with hold | hnew
      · cases hlk : look st.children p with
        | none => simp [lookD, hlk] at hold
        | some cs0 =>
            apply h.childPm p cs0 hlk
            simpa [lookD, hlk] using hold
      · simp only [List.mem_singleton] at hnew
        subst hnew
        exact hrev
    · have hne : p ≠ q := hqp
      simp only [childrenAdd, look_cons_ne _ _ _ _ hne] at hq
      exact h.childPm q cs hq c hcmem
  · exact h.pmSpec

/-- Queueing a parent does not touch pm, known, store or children. -/
theorem fkQueue_inv (repo : Repo) (p : Nat) (st : FKState) (h : FKInv repo st) :
    FKInv repo (if memb p (st.known.map Prod.fst) then st
      else if memb p st.allNeeded then st
      else { st with needed := p :: st.needed, allNeeded := p :: st.allNeeded }) := by
  split
  · exact h
  · split
    · exact h
    · exact ⟨h.pmRoot, h.knownStore, h.pmChild, h.childPm, h.pmSpec⟩

theorem fkQueue_pm (p : Nat) (st : FKState) :
    (if memb p (st.known.map Prod.fst) then st
      else if memb p st.allNeeded then st
      else { st with needed := p :: st.needed,
                     allNeeded := p :: st.allNeeded }).pm = st.pm := by
  split
  · rfl
  · split <;> rfl

theorem fkAddParents_inv (repo : Repo) (rev : Nat) :
    ∀ (ps : List Nat) (st : FKState), FKInv repo st →
    (∃ a as, look st.pm rev = some (a :: as)) →
    FKInv repo (fkAddParents rev ps st) := by
  intro ps
  induction ps with
  | nil => intro st h _; exact h
  | cons p rest ih =>
      intro st h hrev
      show FKInv repo (fkAddParents rev rest _)
      apply ih
      · exact childrenAdd_inv repo rev p _ (fkQueue_inv repo p st h)
          (by rw [fkQueue_pm]; exact hrev)
      · have : ({ (if memb p (st.known.map Prod.fst) then st
            else if memb p st.allNeeded then st
            else { st with needed := p :: st.needed,
                           allNeeded := p :: st.allNeeded }) with
            children := childrenAdd (if memb p (st.known.map Prod.fst) then st
              else if memb p st.allNeeded then st
              else { st with needed := p :: st.needed,
                             allNeeded := p :: st.allNeeded }).children p rev } :
            FKState).pm = st.pm := by
          show (if memb p (st.known.map Prod.fst) then st
            else if memb p st.allNeeded then st
            else { st with needed := p :: st.needed,
                           allNeeded := p :: st.allNeeded }).pm = st.pm
          exact fkQueue_pm p st
        rw [this]
        exact hrev

theorem fkKnownHit_inv (repo : Repo) (st : FKState) (rev g : Nat)
    (h : FKInv repo st) (hg : look st.store.revGdfo rev = some g) :
    FKInv repo (fkKnownHit st rev g) := by
  refine ⟨h.pmRoot, ?_, h.pmChild, h.childPm, h.pmSpec⟩
  intro c gc hc
  replace hc : look ((rev, g) :: st.known) c = some gc := hc
  by_cases hcr : rev = c
  · subst hcr
    rw [look_cons_self] at hc
    cases hc
    exact hg
  · rw [look_cons_ne _ _ _ _ hcr] at hc
    exact h.knownStore c gc hc

theorem fkRecordRoot_inv (repo : Repo) (st : FKState) (rev : Nat) (b : Bool)
    (h : FKInv repo st) (hfresh : look st.store.revGdfo rev = none)
    (hspec : specPm repo rev = []) :
    FKInv repo (fkRecordRoot st rev b) := by
  refine ⟨?_, ?_, ?_, ?_, ?_⟩
  · intro c hc
    replace hc : look ((rev, []) :: st.pm) c = some [] := hc
    show look ((rev, 1) :: st.store.revGdfo) c = some 1
    by_cases hcr : rev = c
    · subst hcr
      exact look_cons_self _ _ _
    · rw [look_cons_ne _ _ _ _ hcr] at hc
      exact look_mono_insert _ _ _ _ _ hfresh (h.pmRoot c hc)
  · intro c g hc
    show look ((rev, 1) :: st.store.revGdfo) c = some g
    exact look_mono_insert _ _ _ _ _ hfresh (h.knownStore c g hc)
  · intro c ps hc hne
    replace hc : look ((rev, []) :: st.pm) c = some ps := hc
    show look ((rev, 1) :: st.store.revGdfo) c = none
    by_cases hcr : rev = c
    · subst hcr
      rw [look_cons_self] at hc
      cases hc
      exact absurd rfl hne
    · rw [look_cons_ne _ _ _ _ hcr] at hc
      rw [look_cons_of_ne _ _ _ _ (fun he => hcr he.symm)]
      exact h.pmChild c ps hc hne
  · intro p cs hp c hcm
    obtain ⟨a, as, ha⟩ := h.childPm p cs hp c hcm
    refine ⟨a, as, ?_⟩
    show look ((rev, []) :: st.pm) c = some (a :: as)
    by_cases hcr : rev = c
    · subst hcr
      have := h.pmSpec _ _ ha
      rw [hspec] at this
      cases this
    · rw [look_cons_ne _ _ _ _ hcr]
      exact ha
  · intro c ps hc
    replace hc : look ((rev, []) :: st.pm) c = some ps := hc
    by_cases hcr : rev = c
    · subst hcr
      rw [look_cons_self] at hc
      cases hc
      exact hspec.symm
    · rw [look_cons_ne _ _ _ _ hcr] at hc
      exact h.pmSpec c ps hc

theorem fkRecordParents_inv (repo : Repo) (st : FKState) (rev p : Nat)
    (ps : List Nat) (h : FKInv repo st)
    (hfresh : look st.store.revGdfo rev = none)
    (hspec : specPm repo rev = p :: ps) :
    FKInv repo (fkRecordParents st rev p ps) := by
  unfold fkRecordParents
  apply fkAddParents_inv
  · refine ⟨?_, ?_, ?_, ?_, ?_⟩
    · intro c hc
      replace hc : look ((rev, p :: ps) :: st.pm) c = some [] := hc
      by_cases hcr : rev = c
      · subst hcr
        rw [look_cons_self] at hc
        cases hc
      · rw [look_cons_ne _ _ _ _ hcr] at hc
        exact h.pmRoot c hc
    · intro c g hc
      exact h.knownStore c g hc
    · intro c cps hc hne
      replace hc : look ((rev, p :: ps) :: st.pm) c = some cps := hc
      by_cases hcr : rev = c
      · subst hcr
        rw [look_cons_self] at hc
        cases hc
        exact hfresh
      · rw [look_cons_ne _ _ _ _ hcr] at hc
        exact h.pmChild c cps hc hne
    · intro q cs hq c hcm
      obtain ⟨a, as, ha⟩ := h.childPm q cs hq c hcm
      by_cases hcr : rev = c
      · subst hcr
        exact ⟨p, ps, look_cons_self _ _ _⟩
      · exact ⟨a, as, by
          show look ((rev, p :: ps) :: st.pm) c = some (a :: as)
          rw [look_cons_ne _ _ _ _ hcr]
          exact ha⟩
    · intro c cps hc
      replace hc : look ((rev, p :: ps) :: st.pm) c = some cps := hc
      by_cases hcr : rev = c
      · subst hcr
        rw [look_cons_self] at hc
        cases hc
        exact hspec.symm
      · rw [look_cons_ne _ _ _ _ hcr] at hc
        exact h.pmSpec c cps hc
  · exact ⟨p, ps, look_cons_self _ _ _⟩

theorem fkStep_inv (repo : Repo) (st0 : FKState) (rev : Nat) (rest : List Nat)
    (h : FKInv repo st0) : FKInv repo (fkStep repo st0 rev rest) := by
  have h0 : FKInv repo { st0 with needed := rest } :=
    ⟨h.pmRoot, h.knownStore, h.pmChild, h.childPm, h.pmSpec⟩
  show FKInv repo
    (if memb rev (st0.known.map Prod.fst) then { st0 with needed := rest }
     else
       match look st0.store.revGdfo rev with
       | some g => fkKnownHit { st0 with needed := rest } rev g
       | none =>
         match repo rev with
         | none => fkRecordRoot { st0 with needed := rest } rev true
         | some [] => fkRecordRoot { st0 with needed := rest } rev false
         | some (p :: ps) => fkRecordParents { st0 with needed := rest } rev p ps)
  by_cases hm : memb rev (st0.known.map Prod.fst) = true
  · rw [if_pos hm]
    exact h0
  · rw [if_neg hm]
    cases hlk : look st0.store.revGdfo rev with
    | some g => exact fkKnownHit_inv repo _ rev g h0 hlk
    | none =>
        cases hrepo : repo rev with
        | none =>
            exact fkRecordRoot_inv repo _ rev true h0 hlk (by simp [specPm, hrepo])
        | some ps0 =>
            cases ps0 with
            | nil =>
                exact fkRecordRoot_inv repo _ rev false h0 hlk (by simp [specPm, hrepo])
            | cons p ps =>
                exact fkRecordParents_inv repo _ rev p ps h0 hlk (by simp [specPm, hrepo])

theorem fkStep_store_sub (repo : Repo) (st0 : FKState) (rev : Nat)
    (rest : List Nat) :
    StoreSub st0.store.revGdfo (fkStep repo st0 rev rest).store.revGdfo := by
  show StoreSub st0.store.revGdfo
    (if memb rev (st0.known.map Prod.fst) then { st0 with needed := rest }
     else
       match look st0.store.revGdfo rev with
       | some g => fkKnownHit { st0 with needed := rest } rev g
       | none =>
         match repo rev with
         | none => fkRecordRoot { st0 with needed := rest } rev true
         | some [] => fkRecordRoot { st0 with needed := rest } rev false
         | some (p :: ps) =>
             fkRecordParents { st0 with needed := rest } rev p ps).store.revGdfo
  by_cases hm : memb rev (st0.known.map Prod.fst) = true
  · rw [if_pos hm]
    exact storeSub_refl _
  · rw [if_neg hm]
    cases hlk : look st0.store.revGdfo rev with
    | some g => exact storeSub_refl _
    | none =>
        cases hrepo : repo rev with
        | none => exact storeSub_insert _ _ _ hlk
        | some ps0 =>
            cases ps0 with
            | nil => exact storeSub_insert _ _ _ hlk
            | cons p ps =>
                show StoreSub st0.store.revGdfo
                  (fkRecordParents { st0 with needed := rest } rev p ps).store.revGdfo
                unfold fkRecordParents
                rw [fkAddParents_store]
                exact storeSub_refl _

theorem fkLoop_inv (repo : Repo) (fuel : Nat) :
    ∀ st : FKState, FKInv repo st → FKInv repo (fkLoop repo fuel st) := by
  induction fuel with
  | zero => intro st h; exact h
  | succ n ih =>
      intro st h
      cases hn : st.needed with
      | nil => simpa [fkLoop, hn] using h
      | cons rev rest =>
          simp only [fkLoop, hn]
          exact ih _ (fkStep_inv repo st rev rest h)

theorem fkLoop_store_sub (repo : Repo) (fuel : Nat) :
    ∀ st : FKState,
    StoreSub st.store.revGdfo (fkLoop repo fuel st).store.revGdfo := by
  induction fuel with
  | zero => intro st; exact storeSub_refl _
  | succ n ih =>
      intro st
      cases hn : st.needed with
      | nil => simp only [fkLoop, hn]; exact storeSub_refl _
      | cons rev rest =>
          simp only [fkLoop, hn]
          exact storeSub_trans (fkStep_store_sub repo st rev rest) (ih _)

theorem findKnownAncestors_inv (repo : Repo) (fuel : Nat) (s : Store)
    (tip : Nat) : FKInv repo (findKnownAncestors repo fuel s tip) := by
  apply fkLoop_inv
  refine ⟨?_, ?_, ?_, ?_, ?_⟩ <;> intro c <;> intros <;> simp_all [look]

theorem findKnownAncestors_store_sub (repo : Repo) (fuel : Nat) (s : Store)
    (tip : Nat) :
    StoreSub s.revGdfo (findKnownAncestors repo fuel s tip).store.revGdfo := by
  unfold findKnownAncestors
  exact fkLoop_store_sub repo fuel
    { needed := [tip], allNeeded := [tip], known := [], pm := [], children := [],
      store := s }

/-! ## C4: invariants of the gdfo computation -/

theorem maxGdfo_mono (k k' : List (Nat × Nat)) (hsub : StoreSub k k') :
    ∀ (ps : List Nat) (acc m : Int), maxGdfo k ps acc = some m →
    maxGdfo k' ps acc = some m := by
  intro ps
  induction ps with
  | nil => intro acc m h; exact h
  | cons p rest ih =>
      intro acc m h
      unfold maxGdfo at h ⊢
      cases hl : look k p with
      | none =>
          rw [hl] at h
          exact Option.noConfusion h
      | some g =>
          rw [hl] at h
          rw [hsub p g hl]
          exact ih _ _ h

theorem childGdfo_mono (k k' : List (Nat × Nat)) (hsub : StoreSub k k')
    (ps : List Nat) (g : Nat) (h : childGdfo k ps = some g) :
    childGdfo k' ps = some g := by
  unfold childGdfo at h ⊢
  cases hm : maxGdfo k ps (-1) with
  | none =>
      rw [hm] at h
      exact Option.noConfusion h
  | some m =>
      rw [hm] at h
      rw [maxGdfo_mono k k' hsub ps (-1) m hm]
      exact h

theorem maxGdfo_bound (k : List (Nat × Nat)) :
    ∀ (ps : List Nat) (acc m : Int), maxGdfo k ps acc = some m →
    acc ≤ m ∧ (∀ q ∈ ps, ∃ gq : Nat, look k q = some gq ∧ (gq : Int) ≤ m) ∧
    (m = acc ∨ ∃ p ∈ ps, ∃ gp : Nat, look k p = some gp ∧ (gp : Int) = m) := by
  intro ps
  induction ps with
  | nil =>
      intro acc m h
      replace h : some acc = some m := h
      cases h
      refine ⟨le_refl _, ?_, Or.inl rfl⟩
      intro q hq
      cases hq
  | cons p rest ih =>
      intro acc m h
      unfold maxGdfo at h
      cases hl : look k p with
      | none =>
          rw [hl] at h
          exact Option.noConfusion h
      | some g =>
          rw [hl] at h
          obtain ⟨h1, h2, h3⟩ := ih (max acc g) m h
          refine ⟨le_trans (le_max_left _ _) h1, ?_, ?_⟩
          · intro q hq
            rcases List.mem_cons.mp hq with rfl | hq2
            · exact ⟨g, hl, le_trans (le_max_right _ _) h1⟩
            · exact h2 q hq2
          · rcases h3 with he | ⟨p2, hp2, gp, hgp, hgpm⟩
            · rcases max_cases acc g with ⟨hmax, _⟩ | ⟨hmax, _⟩
              · rw [hmax] at he
                exact Or.inl he
              · rw [hmax] at he
                exact Or.inr ⟨p, List.mem_cons_self p rest, g, hl, he.symm⟩
            · exact Or.inr ⟨p2, List.mem_cons_of_mem p hp2, gp, hgp, hgpm⟩

theorem childGdfo_analysis (k : List (Nat × Nat)) (a : Nat) (as : List Nat)
    (g : Nat) (h : childGdfo k (a :: as) = some g) :
    ∃ p gmax, p ∈ a :: as ∧ look k p = some gmax ∧ g = gmax + 1 ∧
      ∀ q ∈ a :: as, ∀ gq : Nat, look k q = some gq → gq ≤ gmax := by
  unfold childGdfo at h
  cases hm : maxGdfo k (a :: as) (-1) with
  | none =>
      rw [hm] at h
      exact Option.noConfusion h
  | some m =>
      rw [hm] at h
      replace h : (m + 1).toNat = g := by
        replace h : some ((m + 1).toNat) = some g := h
        cases h
        rfl
      obtain ⟨h1, h2, h3⟩ := maxGdfo_bound k (a :: as) (-1) m hm
      obtain ⟨ga, hga, hgam⟩ := h2 a (List.mem_cons_self a as)
      have hga0 : (0 : Int) ≤ (ga : Int) := Int.natCast_nonneg ga
      have hm0 : (0 : Int) ≤ m := le_trans hga0 hgam
      rcases h3 with he | ⟨p, hp, gp, hgp, hgpm⟩
      · exfalso
        omega
      · refine ⟨p, gp, hp, hgp, by omega, ?_⟩
        intro q hq gq hlq
        obtain ⟨gq', hq', hqm⟩ := h2 q hq
        rw [hlq] at hq'
        cases hq'
        omega

/-- The invariants of _compute_gdfo_and_insert relative to the ancestry
walk result fk: the known map mirrors the inserted rows, uncomputed
children are still absent from the store, every known entry is either
carried over from the walk or satisfies the child-gdfo equation over its
recorded parents, and previously stored gdfos are untouched. -/
structure CGInv (fk : FKState) (known : List (Nat × Nat)) (store : Store) : Prop where
  j1 : ∀ c g, look known c = some g → look store.revGdfo c = some g
  j2 : ∀ c a as, look fk.pm c = some (a :: as) → look known c = none →
        look store.revGdfo c = none
  good : ∀ c g, look known c = some g → look fk.known c = some g ∨
        ∃ a as, look fk.pm c = some (a :: as) ∧
          childGdfo known (a :: as) = some g
  sub : StoreSub fk.store.revGdfo store.revGdfo

theorem cgChildren_inv (fk : FKState) :
    ∀ (cs : List Nat) (known pending : List (Nat × Nat)) (store : Store),
    CGInv fk known store →
    (∀ c ∈ cs, ∃ a as, look fk.pm c = some (a :: as)) →
    CGInv fk (cgChildren (fun c => lookD fk.pm c []) cs known pending store).1
      (cgChildren (fun c => lookD fk.pm c []) cs known pending store).2.2 := by
  intro cs
  induction cs with
  | nil => intro known pending store h _; exact h
  | cons c cs' ih =>
      intro known pending store h hcs
      have hnext : ∀ x ∈ cs', ∃ a as, look fk.pm x = some (a :: as) :=
        fun x hx => hcs x (List.mem_cons_of_mem c hx)
      obtain ⟨a, as, hpmc⟩ := hcs c (List.mem_cons_self c cs')
      have hpmF : lookD fk.pm c [] = a :: as := by
        unfold lookD
        rw [hpmc]
        rfl
      cases hk : look known c with
      | some g0 =>
          have hstep : cgChildren (fun c => lookD fk.pm c []) (c :: cs')
              known pending store =
              cgChildren (fun c => lookD fk.pm c []) cs' known pending store := by
            conv_lhs => unfold cgChildren
            rw [hk]
          rw [hstep]
          exact ih known pending store h hnext
      | none =>
          cases hg : childGdfo known (lookD fk.pm c []) with
          | none =>
              have hstep : cgChildren (fun c => lookD fk.pm c []) (c :: cs')
                  known pending store =
                  cgChildren (fun c => lookD fk.pm c []) cs' known pending store := by
                conv_lhs => unfold cgChildren
                rw [hk, hg]
              rw [hstep]
              exact ih known pending store h hnext
          | some g =>
              have hstep : cgChildren (fun c => lookD fk.pm c []) (c :: cs')
                  known pending store =
                  cgChildren (fun c => lookD fk.pm c []) cs' ((c, g) :: known)
                    ((g, c) :: pending)
                    { store with revGdfo := (c, g) :: store.revGdfo } := by
                conv_lhs => unfold cgChildren
                rw [hk, hg]
              rw [hstep]
              have hfreshStore : look store.revGdfo c = none :=
                h.j2 c a as hpmc hk
              have hsubK : StoreSub known ((c, g) :: known) :=
                storeSub_insert known c g hk
              have hcg : childGdfo known (a :: as) = some g := by
                rw [← hpmF]
                exact hg
              apply ih
              · refine ⟨?_, ?_, ?_, ?_⟩
                · intro c2 g2 hc2
                  by_cases hcr : c = c2
                  · subst hcr
                    rw [look_cons_self] at hc2
                    cases hc2
                    exact look_cons_self _ _ _
                  · rw [look_cons_ne _ _ _ _ hcr] at hc2
                    rw [look_cons_ne _ _ _ _ hcr]
                    exact h.j1 c2 g2 hc2
                · intro c2 a2 as2 hpm2 hk2
                  by_cases hcr : c = c2
                  · subst hcr
                    rw [look_cons_self] at hk2
                    exact Option.noConfusion hk2
                  · rw [look_cons_ne _ _ _ _ hcr] at hk2
                    rw [look_cons_ne _ _ _ _ hcr]
                    exact h.j2 c2 a2 as2 hpm2 hk2
                · intro c2 g2 hc2
                  by_cases hcr : c = c2
                  · subst hcr
                    rw [look_cons_self] at hc2
                    cases hc2
                    exact Or.inr ⟨a, as, hpmc,
                      childGdfo_mono known _ hsubK _ _ hcg⟩
                  · rw [look_cons_ne _ _ _ _ hcr] at hc2
                    rcases h.good c2 g2 hc2 with hl | ⟨a2, as2, hpm2, hcg2⟩
                    · exact Or.inl hl
                    · exact Or.inr ⟨a2, as2, hpm2,
                        childGdfo_mono known _ hsubK _ _ hcg2⟩
                · exact storeSub_trans h.sub (storeSub_insert _ c g hfreshStore)
              · exact hnext

theorem cgLoop_inv (fk : FKState)
    (hch : ∀ rev c, c ∈ lookD fk.children rev [] →
      ∃ a as, look fk.pm c = some (a :: as)) (fuel : Nat) :
    ∀ (known pending : List (Nat × Nat)) (store : Store),
    CGInv fk known store →
    CGInv fk (cgLoop (fun r => lookD fk.children r []) (fun c => lookD fk.pm c [])
        fuel known pending store).1
      (cgLoop (fun r => lookD fk.children r []) (fun c => lookD fk.pm c [])
        fuel known pending store).2 := by
  induction fuel with
  | zero => intro known pending store h; exact h
  | succ n ih =>
      intro known pending store h
      cases pending with
      | nil => exact h
      | cons e rest =>
          have hstep : cgLoop (fun r => lookD fk.children r [])
              (fun c => lookD fk.pm c []) (n + 1) known (e :: rest) store =
              cgLoop (fun r => lookD fk.children r []) (fun c => lookD fk.pm c [])
                n (cgChildren (fun c => lookD fk.pm c [])
                    (lookD fk.children e.2 []) known rest store).1
                (cgChildren (fun c => lookD fk.pm c [])
                    (lookD fk.children e.2 []) known rest store).2.1
                (cgChildren (fun c => lookD fk.pm c [])
                    (lookD fk.children e.2 []) known rest store).2.2 := by
            cases e
            rfl
          rw [hstep]
          exact ih _ _ _ (cgChildren_inv fk _ known rest store h
            (fun c hc => hch e.2 c hc))

/-- C4: after the ancestry update of an import, parent-less roots and
ghosts are recorded with gdfo 1; every other newly walked revision is
recorded with gdfo = 1 + the maximum of its recorded parents' gdfos; in
particular gdfo strictly decreases along every recorded parent edge of
the walk; and previously recorded gdfos are untouched. -/
theorem C4_gdfo (repo : Repo) (fuel cgfuel : Nat) (s0 : Store) (tip : Nat) :
    (∀ c g, look (findKnownAncestors repo fuel s0 tip).pm c = some [] →
       look (computeGdfoAndInsert (findKnownAncestors repo fuel s0 tip) cgfuel).1 c
         = some g → g = 1) ∧
    (∀ c a as gc, look (findKnownAncestors repo fuel s0 tip).pm c = some (a :: as) →
       look (computeGdfoAndInsert (findKnownAncestors repo fuel s0 tip) cgfuel).1 c
         = some gc →
       ∃ p gmax, p ∈ a :: as ∧
         look (computeGdfoAndInsert (findKnownAncestors repo fuel s0 tip) cgfuel).1 p
           = some gmax ∧ gc = gmax + 1 ∧
         ∀ q ∈ a :: as, ∀ gq,
           look (computeGdfoAndInsert (findKnownAncestors repo fuel s0 tip) cgfuel).1 q
             = some gq → gq ≤ gmax) ∧
    (∀ c a as p gc gp, look (findKnownAncestors repo fuel s0 tip).pm c = some (a :: as) →
       p ∈ a :: as →
       look (computeGdfoAndInsert (findKnownAncestors repo fuel s0 tip) cgfuel).1 c
         = some gc →
       look (computeGdfoAndInsert (findKnownAncestors repo fuel s0 tip) cgfuel).1 p
         = some gp → gp < gc) ∧
    (∀ c v, look s0.revGdfo c = some v →
       look (computeGdfoAndInsert (findKnownAncestors repo fuel s0 tip) cgfuel).2.revGdfo c
         = some v) := by
  have hfk := findKnownAncestors_inv repo fuel s0 tip
  have hsub0 := findKnownAncestors_store_sub repo fuel s0 tip
  have hbase : CGInv (findKnownAncestors repo fuel s0 tip)
      (findKnownAncestors repo fuel s0 tip).known
      (findKnownAncestors repo fuel s0 tip).store := by
    refine ⟨hfk.knownStore, ?_, fun c g h => Or.inl h, storeSub_refl _⟩
    intro c a as hpm _
    exact hfk.pmChild c (a :: as) hpm (by simp)
  have hch : ∀ rev c,
      c ∈ lookD (findKnownAncestors repo fuel s0 tip).children rev [] →
      ∃ a as, look (findKnownAncestors repo fuel s0 tip).pm c = some (a :: as) := by
    intro rev c hc
    unfold lookD at hc
    cases hlk : look (findKnownAncestors repo fuel s0 tip).children rev with
    | none =>
        rw [hlk] at hc
        cases hc
    | some cs =>
        rw [hlk] at hc
        exact hfk.childPm rev cs hlk c hc
  have hcg : CGInv (findKnownAncestors repo fuel s0 tip)
      (computeGdfoAndInsert (findKnownAncestors repo fuel s0 tip) cgfuel).1
      (computeGdfoAndInsert (findKnownAncestors repo fuel s0 tip) cgfuel).2 := by
    unfold computeGdfoAndInsert
    exact cgLoop_inv _ hch cgfuel _ _ _ hbase
  have hknownNone : ∀ c a as,
      look (findKnownAncestors repo fuel s0 tip).pm c = some (a :: as) →
      look (findKnownAncestors repo fuel s0 tip).known c = none := by
    intro c a as hpm
    cases hlk : look (findKnownAncestors repo fuel s0 tip).known c with
    | none => rfl
    | some g =>
        have h1 := hfk.knownStore c g hlk
        have h2 := hfk.pmChild c (a :: as) hpm (by simp)
        rw [h1] at h2
        exact Option.noConfusion h2
  have main2 : ∀ c a as gc,
      look (findKnownAncestors repo fuel s0 tip).pm c = some (a :: as) →
      look (computeGdfoAndInsert (findKnownAncestors repo fuel s0 tip) cgfuel).1 c
        = some gc →
      ∃ p gmax, p ∈ a :: as ∧
        look (computeGdfoAndInsert (findKnownAncestors repo fuel s0 tip) cgfuel).1 p
          = some gmax ∧ gc = gmax + 1 ∧
        ∀ q ∈ a :: as, ∀ gq,
          look (computeGdfoAndInsert (findKnownAncestors repo fuel s0 tip) cgfuel).1 q
            = some gq → gq ≤ gmax := by
    intro c a as gc hpm hkf
    rcases hcg.good c gc hkf with hl | ⟨a2, as2, hpm2, hcgv⟩
    · rw [hknownNone c a as hpm] at hl
      exact Option.noConfusion hl
    · rw [hpm] at hpm2
      cases hpm2
      exact childGdfo_analysis _ a as gc hcgv
  refine ⟨?_, main2, ?_, ?_⟩
  · intro c g hpm hkf
    rcases hcg.good c g hkf with hl | ⟨a2, as2, hpm2, _⟩
    · have h1 := hfk.knownStore c g hl
      have h2 := hfk.pmRoot c hpm
      rw [h1] at h2
      cases h2
      rfl
    · rw [hpm] at hpm2
      simp at hpm2
  · intro c a as p gc gp hpm hmem hkc hkp
    obtain ⟨p2, gmax, _, hp2, hgc, hbnd⟩ := main2 c a as gc hpm hkc
    have := hbnd p hmem gp hkp
    omega
  · intro c v hv
    exact hcg.sub c v (hsub0 c v hv)

/-- C4 witness: in the ghost fixture, revision 3 has recorded parents
(9, 5) and gdfo 2 = 1 + max(1, 1). -/
theorem C4_witness :
    ∃ p gmax, p ∈ [9, 5] ∧
      look (computeGdfoAndInsert (findKnownAncestors repoGhost 64 emptyStore 4) 64).1 p
        = some gmax ∧ 2 = gmax + 1 ∧
      ∀ q ∈ [9, 5], ∀ gq,
        look (computeGdfoAndInsert (findKnownAncestors repoGhost 64 emptyStore 4) 64).1 q
          = some gq → gq ≤ gmax :=
  (C4_gdfo repoGhost 64 64 emptyStore 4).2.1 3 9 [5] 2 (by decide) (by decide)

end HistoryDb
